import Mathlib

/-!
Verification of the dairy_manager monthly billing ledger
(`dairy_app/models.py` and the payment-creation allocation loop in
`dairy_app/views.py`) against its natural-language specification.

Shallow embedding conventions:
* Currency/decimal values are modelled as `ℚ` (Python's `Decimal` is exact
  arithmetic; all operations used here are +, -, *, min, comparisons).
* Python `datetime.date` is modelled by `Date` with lexicographic order;
  Python raises `ValueError` on an out-of-range month, modelled by the
  `Except` layer of `recalcM`.
* Django ORM rows for one customer are collected in a `State`
  (sales, payments, payment allocations, monthly-balance rows).
  All claims are per-customer, so one customer's data suffices.
* Django's autocommit is modelled by threading the `State`; an exception
  raised mid-operation returns the partially committed state, while
  `transaction.atomic()` (in `distribute_to_months`) rolls back to the
  state at the start of the block.
-/

namespace DairyLedger

/-- Python `datetime.date`: year, month, day. Real `date` objects are always
valid; validity is tracked by `ValidDate` below. -/
structure Date where
  year : Nat
  month : Nat
  day : Nat
deriving DecidableEq

/-- Lexicographic `≤` on dates, as Python compares `date` objects. -/
def dateLeB (a b : Date) : Bool :=
  a.year < b.year ||
    (a.year == b.year &&
      (a.month < b.month || (a.month == b.month && a.day ≤ b.day)))

/-- Lexicographic `<` on dates. -/
def dateLtB (a b : Date) : Bool :=
  a.year < b.year ||
    (a.year == b.year &&
      (a.month < b.month || (a.month == b.month && a.day < b.day)))

/-- Gregorian leap-year rule, as implemented by Python's `calendar`/`datetime`. -/
def isLeap (y : Nat) : Bool :=
  y % 4 == 0 && (y % 100 != 0 || y % 400 == 0)

/-- Number of days in a month (leap-aware February). -/
def daysInMonth (y m : Nat) : Nat :=
  if m = 2 then (if isLeap y then 29 else 28)
  else if m = 4 ∨ m = 6 ∨ m = 9 ∨ m = 11 then 30
  else 31

/-- A `Date` that Python's `datetime.date` constructor would accept
(we do not bound the year; the repository only uses contemporary years). -/
def ValidDate (d : Date) : Prop :=
  1 ≤ d.month ∧ d.month ≤ 12 ∧ 1 ≤ d.day ∧ d.day ≤ daysInMonth d.year d.month

instance (d : Date) : Decidable (ValidDate d) := by
  unfold ValidDate; infer_instance

/-- `datetime.date(y, m, 1)`: the first day of a month. -/
def monthStart (y m : Nat) : Date := ⟨y, m, 1⟩

/-- Python `d - timedelta(days=1)` for a valid date `d`. -/
def predDay (d : Date) : Date :=
  if 1 < d.day then ⟨d.year, d.month, d.day - 1⟩
  else if 1 < d.month then ⟨d.year, d.month - 1, daysInMonth d.year (d.month - 1)⟩
  else ⟨d.year - 1, 12, 31⟩

/-- End date of a month exactly as `MonthlyBalance.recalculate` computes it:
`date(year+1, 1, 1) - 1 day` when `month == 12`, else
`date(year, month+1, 1) - 1 day`. -/
def monthEnd (y m : Nat) : Date :=
  if m = 12 then predDay ⟨y + 1, 1, 1⟩ else predDay ⟨y, m + 1, 1⟩

/-- Linear month index `year*12 + (month-1)`; orders (year, month) pairs. -/
def monthIdx (y m : Nat) : Nat := y * 12 + (m - 1)

/-- Year component of a month index. -/
def idxYear (i : Nat) : Nat := i / 12

/-- Month component (1–12) of a month index. -/
def idxMonth (i : Nat) : Nat := i % 12 + 1

/-- The chronological list of (year, month) pairs with indices in `[a, b]`;
this is what the `while current_date <= end_date` loops in
`update_monthly_balances` / `get_month_payment_status` iterate over. -/
def monthRange (a b : Nat) : List (Nat × Nat) :=
  (List.range' a (b + 1 - a)).map (fun i => (idxYear i, idxMonth i))

/-- A `Sale` row (a Charge): date, quantity (liters), rate (Rs/liter). -/
structure Sale where
  date : Date
  quantity : ℚ
  rate : ℚ
deriving DecidableEq

/-- A `Payment` row (a Credit): id, date, amount, optional direct target
month/year (`payment_for_month` / `payment_for_year`, each nullable). -/
structure Payment where
  id : Nat
  date : Date
  amount : ℚ
  forMonth : Option Nat
  forYear : Option Nat
deriving DecidableEq

/-- A `PaymentAllocation` row: owning payment id, month, year, amount. -/
structure Alloc where
  payment : Nat
  month : Nat
  year : Nat
  amount : ℚ
deriving DecidableEq

/-- A `MonthlyBalance` row for the customer. -/
structure BalanceRow where
  year : Nat
  month : Nat
  sales_amount : ℚ
  payment_amount : ℚ
  is_paid : Bool
deriving DecidableEq

/-- All ledger rows of one customer. -/
structure State where
  sales : List Sale
  payments : List Payment
  allocs : List Alloc
  balances : List BalanceRow
deriving DecidableEq

/-- Input dict `{'month': m, 'year': y, 'amount': q}` for
`distribute_to_months`. -/
structure AllocInput where
  month : Nat
  year : Nat
  amount : ℚ
deriving DecidableEq

/-- Python truthiness of a nullable integer field: `None` and `0` are falsy. -/
def truthy : Option Nat → Bool
  | none => false
  | some n => n != 0

/-- Sum of the mapped values of a list (`aggregate(total=Sum(...)) or 0`). -/
def qsum {α : Type} (l : List α) (f : α → ℚ) : ℚ := (l.map f).sum

/-- `Sale.objects.filter(customer, date__gte=start, date__lte=end)` summed as
`Sum(F('quantity') * F('rate'))` for the month of (y, m), as in
`MonthlyBalance.recalculate` and `Customer.get_month_balance`. -/
def monthSales (s : State) (y m : Nat) : ℚ :=
  qsum (s.sales.filter (fun x =>
    dateLeB (monthStart y m) x.date && dateLeB x.date (monthEnd y m)))
    (fun x => x.quantity * x.rate)

/-- `Payment.objects.filter(customer, payment_for_month=m, payment_for_year=y)`
summed over `amount`. -/
def directPayments (s : State) (y m : Nat) : ℚ :=
  qsum (s.payments.filter (fun p => p.forMonth == some m && p.forYear == some y))
    (fun p => p.amount)

/-- `PaymentAllocation.objects.filter(payment__customer, month=m, year=y)`
summed over `amount`. -/
def allocatedPayments (s : State) (y m : Nat) : ℚ :=
  qsum (s.allocs.filter (fun a => a.month == m && a.year == y))
    (fun a => a.amount)

/-- The dictionary returned by `MonthlyBalance.recalculate`. -/
structure RecalcOut where
  sales : ℚ
  payments : ℚ
  balance : ℚ
  is_paid : Bool
deriving DecidableEq

/-- The pure computation inside `MonthlyBalance.recalculate`: month sales,
direct plus allocated payments, balance, and `is_paid = payments >= sales`.
Reads only sales/payments/allocations, never the balance table. -/
def recalcOut (s : State) (y m : Nat) : RecalcOut :=
  let ms := monthSales s y m
  let mp := directPayments s y m + allocatedPayments s y m
  ⟨ms, mp, ms - mp, decide (ms ≤ mp)⟩

/-- `MonthlyBalance.objects.get(customer, year, month)` (unique key lookup). -/
def findRow (s : State) (y m : Nat) : Option BalanceRow :=
  s.balances.find? (fun b => b.year == y && b.month == m)

/-- Saving the recalculated row: replaces any row keyed (y, m). -/
def setRow (s : State) (y m : Nat) (r : RecalcOut) : State :=
  { s with balances :=
      ⟨y, m, r.sales, r.payments, r.is_paid⟩ ::
        s.balances.filter (fun b => !(b.year == y && b.month == m)) }

/-- `MonthlyBalance.objects.get_or_create(customer, year, month)`: inserts a
default row (`sales_amount=0, payment_amount=0, is_paid=False`) when absent.
The insert commits immediately (autocommit) — it survives a later exception. -/
def getOrCreate (s : State) (y m : Nat) : State :=
  match findRow s y m with
  | some _ => s
  | none => { s with balances := ⟨y, m, 0, 0, false⟩ :: s.balances }

/-- `MonthlyBalance.recalculate`: `datetime.date(self.year, self.month, 1)`
raises `ValueError` when the month is outside 1–12; otherwise compute and
save the row and return the result dict. -/
def recalcM (s : State) (y m : Nat) : Except String (RecalcOut × State) :=
  if 1 ≤ m ∧ m ≤ 12 then
    .ok (recalcOut s y m, setRow s y m (recalcOut s y m))
  else
    .error "ValueError: month must be in 1..12"

/-- One entry of the list returned by the sweep branch of
`update_monthly_balances`: the recalculate result dict updated with
`year` and `month`. -/
structure SweepItem where
  res : RecalcOut
  year : Nat
  month : Nat
deriving DecidableEq

/-- Return value of `update_monthly_balances`: a single result dict
(specific-month branch) or a list (sweep branch). -/
inductive UpdateOut where
  | one : RecalcOut → UpdateOut
  | many : List SweepItem → UpdateOut
deriving DecidableEq

/-- Lexicographic minimum of two dates (used to model `Min('date')`). -/
def dateMin (a b : Date) : Date := if dateLeB a b then a else b

/-- Lexicographic maximum of two dates (used to model `Max('date')`). -/
def dateMax (a b : Date) : Date := if dateLeB a b then b else a

/-- `Sale.objects.filter(customer).aggregate(earliest=Min('date'))`:
`none` iff the customer has no sales. -/
def minSaleDate : List Sale → Option Date
  | [] => none
  | x :: l => some ((l.map (fun v => v.date)).foldl dateMin x.date)

/-- `Sale.objects.filter(customer).aggregate(latest=Max('date'))`. -/
def maxSaleDate : List Sale → Option Date
  | [] => none
  | x :: l => some ((l.map (fun v => v.date)).foldl dateMax x.date)

/-- The body of the `while current_date <= end_date` loop in the sweep branch
of `update_monthly_balances`: for each (year, month), `get_or_create` the row,
`recalculate` it, and record the result dict updated with year/month.
An exception propagates, leaving the rows committed so far. -/
def sweepGo : State → List (Nat × Nat) → Except String (List SweepItem) × State
  | s, [] => (.ok [], s)
  | s, (y, m) :: rest =>
    match recalcM (getOrCreate s y m) y m with
    | .error e => (.error e, getOrCreate s y m)
    | .ok (r, s2) =>
      match sweepGo s2 rest with
      | (.ok items, s3) => (.ok (⟨r, y, m⟩ :: items), s3)
      | (.error e, s3) => (.error e, s3)

/-- `MonthlyBalance.update_monthly_balances(customer, year=None, month=None)`.
`if year and month:` uses Python truthiness (None or 0 falls through to the
sweep branch). The specific branch does `get_or_create` then `recalculate`;
if `recalculate` raises, the freshly created default row stays committed.
The sweep branch walks every month between the earliest and latest sale. -/
def updateMonthlyBalances (s : State) (year month : Option Nat) :
    Except String UpdateOut × State :=
  if truthy year && truthy month then
    match recalcM (getOrCreate s (year.getD 0) (month.getD 0))
        (year.getD 0) (month.getD 0) with
    | .ok (r, s2) => (.ok (.one r), s2)
    | .error e => (.error e, getOrCreate s (year.getD 0) (month.getD 0))
  else
    match minSaleDate s.sales, maxSaleDate s.sales with
    | some dmin, some dmax =>
      match sweepGo s (monthRange (monthIdx dmin.year dmin.month)
          (monthIdx dmax.year dmax.month)) with
      | (.ok items, s2) => (.ok (.many items), s2)
      | (.error e, s2) => (.error e, s2)
    | _, _ => (.ok (.many []), s)

/-- The recalculation loop at the end of `distribute_to_months`: for each
(year, month) in `months_to_update`, call
`MonthlyBalance.update_monthly_balances(customer, year=year, month=month)`.
An exception propagates immediately. -/
def recalcMonths : State → List (Nat × Nat) → Except String Unit × State
  | s, [] => (.ok (), s)
  | s, (y, m) :: rest =>
    match updateMonthlyBalances s (some y) (some m) with
    | (.ok _, s1) => recalcMonths s1 rest
    | (.error e, s1) => (.error e, s1)

/-- `Payment.distribute_to_months(month_allocations)`.
* Empty/missing list: if either target field is falsy (None or 0), return
  `[]` with no change; otherwise synthesize one full-amount allocation for
  the direct target.
* Validate `sum(amounts) > payment.amount` → `ValueError`, nothing written.
* Inside `transaction.atomic()`: delete the payment's existing allocations,
  insert the new set, recalculate each distinct (year, month) of the new
  set (`months_to_update` is a Python set — modelled by `dedup`).
  An exception inside the block rolls the state back to the block start.
The `if not month_allocations:` prologue is `distributeChosen`: `none`
models the early `return []`; otherwise it is the allocation dict list that
the rest of the method processes. -/
def distributeChosen (p : Payment) (inputs : List AllocInput) :
    Option (List AllocInput) :=
  if inputs.isEmpty then
    if !(truthy p.forMonth) || !(truthy p.forYear) then none
    else some [⟨p.forMonth.getD 0, p.forYear.getD 0, p.amount⟩]
  else some inputs

def distributeToMonths (s : State) (p : Payment) (inputs : List AllocInput) :
    Except String (List Alloc) × State :=
  match distributeChosen p inputs with
  | none => (.ok [], s)
  | some allocs =>
    if p.amount < qsum allocs (fun a => a.amount) then
      (.error "ValueError: Total allocated amount exceeds payment amount", s)
    else
      match recalcMonths
          { s with allocs := (s.allocs.filter (fun a => a.payment != p.id))
              ++ allocs.map (fun a => Alloc.mk p.id a.month a.year a.amount) }
          ((allocs.map (fun a => (a.year, a.month))).dedup) with
      | (.ok _, s2) =>
        (.ok (allocs.map (fun a => Alloc.mk p.id a.month a.year a.amount)), s2)
      | (.error e, _) => (.error e, s)

/-- One dict of the list built by `Customer.get_pending_months`. -/
structure PendingMonth where
  year : Nat
  month : Nat
  balance : ℚ
  sales : ℚ
  payments : ℚ
deriving DecidableEq

/-- `order_by('year', 'month')`: ascending lexicographic (year, month). -/
def ymRowLe (a b : BalanceRow) : Prop :=
  a.year < b.year ∨ (a.year = b.year ∧ a.month ≤ b.month)

instance : DecidableRel ymRowLe := by
  unfold ymRowLe; infer_instance

/-- `Customer.get_pending_months`: force a full sweep, then read back the
rows with `is_paid=False` and `sales_amount > 0`, ordered by (year, month)
ascending, each mapped to a dict with `balance = sales - payments`. -/
def getPendingMonths (s : State) : List PendingMonth × State :=
  let s1 := (updateMonthlyBalances s none none).2
  let rows := (s1.balances.filter
    (fun b => !b.is_paid && decide (0 < b.sales_amount))).insertionSort ymRowLe
  (rows.map (fun b =>
    ⟨b.year, b.month, b.sales_amount - b.payment_amount,
      b.sales_amount, b.payment_amount⟩), s1)

/-- The dictionary returned by `Customer.get_month_balance`. -/
structure MonthBalanceOut where
  sales_total : ℚ
  payment_total : ℚ
  month_balance : ℚ
  previous_balance : ℚ
  total_balance : ℚ
deriving DecidableEq

/-- `Customer.get_month_balance(year, month)`: the live (non-materialized)
balance. Month sales/payments within the month; previous sales before the
month start; previous payments = unassigned payments dated before the month
start, plus payments targeted at an earlier year, plus payments targeted at
an earlier month of the same year. Note it never reads PaymentAllocation. -/
def getMonthBalance (s : State) (y m : Nat) : MonthBalanceOut :=
  let startD := monthStart y m
  let endD := monthEnd y m
  let month_sales := qsum (s.sales.filter (fun x =>
    dateLeB startD x.date && dateLeB x.date endD)) (fun x => x.quantity * x.rate)
  let month_payments := qsum (s.payments.filter (fun p =>
    p.forMonth == some m && p.forYear == some y)) (fun p => p.amount)
  let previous_sales := qsum (s.sales.filter (fun x =>
    dateLtB x.date startD)) (fun x => x.quantity * x.rate)
  let prev_unassigned := qsum (s.payments.filter (fun p =>
    dateLtB p.date startD && p.forMonth == none && p.forYear == none))
    (fun p => p.amount)
  let prev_assigned := qsum (s.payments.filter (fun p =>
    match p.forYear with | some z => z < y | none => false))
    (fun p => p.amount)
  let same_year_prev := qsum (s.payments.filter (fun p =>
    p.forYear == some y &&
      (match p.forMonth with | some w => w < m | none => false)))
    (fun p => p.amount)
  let previous_payments := prev_unassigned + prev_assigned + same_year_prev
  let month_balance := month_sales - month_payments
  let previous_balance := previous_sales - previous_payments
  ⟨month_sales, month_payments, month_balance, previous_balance,
    previous_balance + month_balance⟩

/-- Earliest month index among all dated or targeted ledger data, capped
above by `t`. Auxiliary lower bound for `specMaterializedTotal`: every month
index carrying any sale, direct target, or allocation is ≥ this value. -/
def earliestDataIdx (s : State) (t : Nat) : Nat :=
  ((s.sales.map (fun x => monthIdx x.date.year x.date.month)) ++
    (s.payments.filterMap (fun p =>
      match p.forYear, p.forMonth with
      | some yy, some mm => some (monthIdx yy mm)
      | _, _ => none)) ++
    (s.allocs.map (fun a => monthIdx a.year a.month))).foldl min t

/-- Modelled from the spec: "the sum of the recalculated MonthlyBalance
sales_amount − payment_amount for all months ≤ (y, m)". Months before any
ledger data contribute zero, so the sum runs from the earliest data month. -/
def specMaterializedTotal (s : State) (y m : Nat) : ℚ :=
  qsum (monthRange (earliestDataIdx s (monthIdx y m)) (monthIdx y m))
    (fun p => (recalcOut s p.1 p.2).sales - (recalcOut s p.1 p.2).payments)

/-- The allocation-building loop of `payment_create_view`
(views.py, the `for balance in unpaid_balances:` loop): walk the unpaid
rows oldest-first, skip unselected months, allocate
`min(owed, amount_remaining)`, skip non-positive allocations, stop when the
payment is exhausted. Returns the built allocation dicts and the remaining
amount. -/
def allocateLoop (remaining : ℚ) (rows : List BalanceRow)
    (selected : List (Nat × Nat)) : List AllocInput × ℚ :=
  match rows with
  | [] => ([], remaining)
  | b :: rest =>
    if !((b.month, b.year) ∈ selected) then allocateLoop remaining rest selected
    else if min (b.sales_amount - b.payment_amount) remaining ≤ 0 then
      allocateLoop remaining rest selected
    else if remaining - min (b.sales_amount - b.payment_amount) remaining ≤ 0
    then
      ([⟨b.month, b.year, min (b.sales_amount - b.payment_amount) remaining⟩],
        remaining - min (b.sales_amount - b.payment_amount) remaining)
    else
      (⟨b.month, b.year, min (b.sales_amount - b.payment_amount) remaining⟩ ::
          (allocateLoop
            (remaining - min (b.sales_amount - b.payment_amount) remaining)
            rest selected).1,
        (allocateLoop
          (remaining - min (b.sales_amount - b.payment_amount) remaining)
          rest selected).2)

/-- `MonthlyBalance.objects.filter(customer, is_paid=False,
sales_amount__gt=0).order_by('year', 'month')` as read by
`payment_create_view`. -/
def viewUnpaidRows (s : State) : List BalanceRow :=
  (s.balances.filter
    (fun b => !b.is_paid && decide (0 < b.sales_amount))).insertionSort ymRowLe

/-- The allocation list built by `payment_create_view` for a multi-month
payment of `amount` over the checkbox-selected months. -/
def paymentCreateAllocs (s : State) (amount : ℚ)
    (selected : List (Nat × Nat)) : List AllocInput :=
  (allocateLoop amount (viewUnpaidRows s) selected).1


/-! ## Basic lemmas about dates and month indexing -/

theorem dateLeB_iff (a b : Date) :
    dateLeB a b = true ↔
      a.year < b.year ∨ (a.year = b.year ∧
        (a.month < b.month ∨ (a.month = b.month ∧ a.day ≤ b.day))) := by
  simp [dateLeB]

theorem dateLtB_iff (a b : Date) :
    dateLtB a b = true ↔
      a.year < b.year ∨ (a.year = b.year ∧
        (a.month < b.month ∨ (a.month = b.month ∧ a.day < b.day))) := by
  simp [dateLtB]

theorem monthEnd_eq (y m : Nat) (h1 : 1 ≤ m) (h2 : m ≤ 12) :
    monthEnd y m = ⟨y, m, daysInMonth y m⟩ := by
  unfold monthEnd predDay
  by_cases h12 : m = 12
  · subst h12
    simp [daysInMonth]
  · have hlt : 1 < m + 1 := by omega
    simp [h12, hlt]

theorem start_le_iff (y m : Nat) (d : Date) :
    dateLeB (monthStart y m) d = true ↔
      y < d.year ∨ (y = d.year ∧ (m < d.month ∨ (m = d.month ∧ 1 ≤ d.day))) := by
  simp [dateLeB, monthStart]

theorem le_end_iff (y m : Nat) (d : Date) (h1 : 1 ≤ m) (h2 : m ≤ 12) :
    dateLeB d (monthEnd y m) = true ↔
      d.year < y ∨ (d.year = y ∧
        (d.month < m ∨ (d.month = m ∧ d.day ≤ daysInMonth y m))) := by
  rw [monthEnd_eq y m h1 h2]
  simp [dateLeB]

theorem lt_start_iff (y m : Nat) (d : Date) :
    dateLtB d (monthStart y m) = true ↔
      d.year < y ∨ (d.year = y ∧ (d.month < m ∨ (d.month = m ∧ d.day < 1))) := by
  simp [dateLtB, monthStart]

theorem monthIdx_idx (i : Nat) : monthIdx (idxYear i) (idxMonth i) = i := by
  unfold monthIdx idxYear idxMonth
  omega

theorem idxMonth_bounds (i : Nat) : 1 ≤ idxMonth i ∧ idxMonth i ≤ 12 := by
  unfold idxMonth
  omega

theorem idxYM_monthIdx (y m : Nat) (h1 : 1 ≤ m) (h2 : m ≤ 12) :
    idxYear (monthIdx y m) = y ∧ idxMonth (monthIdx y m) = m := by
  unfold idxYear idxMonth monthIdx
  omega

/-- The date-range filter of `recalculate` selects exactly the sales whose
date has the given calendar year and month — both endpoints inclusive, with
month boundaries correct across year-end and leap February. -/
theorem inMonth_iff (y m : Nat) (d : Date) (h1 : 1 ≤ m) (h2 : m ≤ 12)
    (hv : ValidDate d) :
    (dateLeB (monthStart y m) d && dateLeB d (monthEnd y m)) = true ↔
      (d.year = y ∧ d.month = m) := by
  obtain ⟨hm1, hm2, hd1, hd2⟩ := hv
  rw [Bool.and_eq_true, start_le_iff, le_end_iff y m d h1 h2]
  constructor
  · rintro ⟨ha, hb⟩
    omega
  · rintro ⟨hy, hm⟩
    have hdm : daysInMonth d.year d.month = daysInMonth y m := by
      rw [hy, hm]
    omega

/-- For a valid date, lying on or before the computed month end is the same
as its month index being at most the month's index. -/
theorem dateLe_monthEnd_iff (y m : Nat) (d : Date) (h1 : 1 ≤ m) (h2 : m ≤ 12)
    (hv : ValidDate d) :
    dateLeB d (monthEnd y m) = true ↔
      monthIdx d.year d.month ≤ monthIdx y m := by
  obtain ⟨hm1, hm2, hd1, hd2⟩ := hv
  rw [le_end_iff y m d h1 h2]
  unfold monthIdx
  constructor
  · intro h
    omega
  · intro h
    by_cases hy : d.year = y
    · by_cases hm : d.month = m
      · have hdm : daysInMonth d.year d.month = daysInMonth y m := by
          rw [hy, hm]
        omega
      · omega
    · omega

/-- A date strictly before the month start and a date within the month range
are mutually exclusive, and together cover exactly the dates whose month
index is at most the target month's index. -/
theorem before_or_inMonth (y m : Nat) (d : Date) (h1 : 1 ≤ m) (h2 : m ≤ 12)
    (hv : ValidDate d) :
    ((dateLtB d (monthStart y m) ||
        (dateLeB (monthStart y m) d && dateLeB d (monthEnd y m))) = true ↔
      monthIdx d.year d.month ≤ monthIdx y m) ∧
    ¬(dateLtB d (monthStart y m) = true ∧
        (dateLeB (monthStart y m) d && dateLeB d (monthEnd y m)) = true) := by
  obtain ⟨hm1, hm2, hd1, hd2⟩ := hv
  constructor
  · rw [Bool.or_eq_true, lt_start_iff, Bool.and_eq_true, start_le_iff,
      dateLe_monthEnd_iff y m d h1 h2 ⟨hm1, hm2, hd1, hd2⟩]
    constructor
    · rintro (h | ⟨h3, h4⟩)
      · unfold monthIdx
        omega
      · exact h4
    · intro h
      by_cases hcase : y < d.year ∨
          (y = d.year ∧ (m < d.month ∨ (m = d.month ∧ 1 ≤ d.day)))
      · right
        exact ⟨hcase, h⟩
      · left
        omega
  · rintro ⟨hlt, hge⟩
    rw [lt_start_iff] at hlt
    rw [Bool.and_eq_true, start_le_iff] at hge
    obtain ⟨hge1, _⟩ := hge
    omega

theorem dateLeB_refl (a : Date) : dateLeB a a = true := by
  rw [dateLeB_iff]; omega

theorem dateLeB_total (a b : Date) : dateLeB a b = true ∨ dateLeB b a = true := by
  rw [dateLeB_iff, dateLeB_iff]; omega

theorem dateLeB_trans {a b c : Date} (h1 : dateLeB a b = true)
    (h2 : dateLeB b c = true) : dateLeB a c = true := by
  rw [dateLeB_iff] at h1 h2 ⊢; omega

/-- Month indices respect the date order on valid months. -/
theorem monthIdx_mono {a b : Date} (ha1 : 1 ≤ a.month) (ha2 : a.month ≤ 12)
    (hb1 : 1 ≤ b.month) (hb2 : b.month ≤ 12) (h : dateLeB a b = true) :
    monthIdx a.year a.month ≤ monthIdx b.year b.month := by
  rw [dateLeB_iff] at h
  unfold monthIdx
  omega

/-! ## Generic list lemmas -/

theorem find?_filter_eq {α : Type} (l : List α) (p q : α → Bool)
    (h : ∀ x, q x = false → p x = false) :
    (l.filter q).find? p = l.find? p := by
  induction l with
  | nil => rfl
  | cons a l ih =>
    cases hq : q a with
    | true =>
      rw [List.filter_cons_of_pos hq]
      cases hp : p a with
      | true => simp only [List.find?_cons, hp]
      | false =>
        simp only [List.find?_cons, hp]
        exact ih
    | false =>
      rw [List.filter_cons_of_neg (by simp [hq])]
      have hp := h a hq
      rw [ih]
      simp only [List.find?_cons, hp]

theorem qsum_nil {α : Type} (f : α → ℚ) : qsum [] f = 0 := rfl

theorem qsum_cons {α : Type} (a : α) (l : List α) (f : α → ℚ) :
    qsum (a :: l) f = f a + qsum l f := by
  simp [qsum]

theorem qsum_append {α : Type} (l1 l2 : List α) (f : α → ℚ) :
    qsum (l1 ++ l2) f = qsum l1 f + qsum l2 f := by
  simp [qsum]

theorem qsum_filter_cons {α : Type} (a : α) (l : List α) (p : α → Bool)
    (f : α → ℚ) :
    qsum ((a :: l).filter p) f
      = (if p a = true then f a else 0) + qsum (l.filter p) f := by
  by_cases h : p a = true
  · rw [List.filter_cons_of_pos h, qsum_cons, if_pos h]
  · rw [List.filter_cons_of_neg h, if_neg h, zero_add]

theorem qsum_sub {α : Type} (l : List α) (f g : α → ℚ) :
    qsum l (fun x => f x - g x) = qsum l f - qsum l g := by
  induction l with
  | nil => simp [qsum]
  | cons a l ih =>
    rw [qsum_cons, qsum_cons, qsum_cons, ih]
    ring

/-- Summing two disjoint filters equals summing the filter of the
disjunction. -/
theorem qsum_filter_or {α : Type} (l : List α) (pa pb : α → Bool) (f : α → ℚ)
    (hdisj : ∀ x ∈ l, ¬(pa x = true ∧ pb x = true)) :
    qsum (l.filter pa) f + qsum (l.filter pb) f
      = qsum (l.filter (fun x => pa x || pb x)) f := by
  induction l with
  | nil => simp [qsum]
  | cons a l ih =>
    have hda := hdisj a (List.mem_cons_self a l)
    have ihl := ih (fun x hx => hdisj x (List.mem_cons_of_mem a hx))
    by_cases h1 : pa a = true
    · have h2 : pb a = false := by
        cases hb : pb a
        · rfl
        · exact absurd ⟨h1, hb⟩ hda
      rw [List.filter_cons_of_pos h1, List.filter_cons_of_neg (by simp [h2]),
        List.filter_cons_of_pos (by simp [h1]), qsum_cons, qsum_cons, ← ihl]
      ring
    · have h1f : pa a = false := by
        cases hb : pa a
        · rfl
        · exact absurd hb h1
      by_cases h2 : pb a = true
      · rw [List.filter_cons_of_neg (by simp [h1f]), List.filter_cons_of_pos h2,
          List.filter_cons_of_pos (by simp [h1f, h2]), qsum_cons, qsum_cons,
          ← ihl]
        ring
      · have h2f : pb a = false := by
          cases hb : pb a
          · rfl
          · exact absurd hb h2
        rw [List.filter_cons_of_neg (by simp [h1f]),
          List.filter_cons_of_neg (by simp [h2f]),
          List.filter_cons_of_neg (by simp [h1f, h2f])]
        exact ihl

theorem sum_range'_ite (a n j : Nat) (c : ℚ) :
    ((List.range' a n).map (fun i => if i = j then c else 0)).sum
      = if a ≤ j ∧ j < a + n then c else 0 := by
  induction n generalizing a with
  | zero =>
    simp only [List.range'_zero, List.map_nil, List.sum_nil]
    rw [if_neg (by omega)]
  | succ n ih =>
    rw [List.range'_succ, List.map_cons, List.sum_cons, ih (a + 1)]
    by_cases hj : a = j
    · subst hj
      rw [if_pos rfl, if_neg (by omega), if_pos (by omega)]
      ring
    · rw [if_neg hj]
      by_cases hin : a + 1 ≤ j ∧ j < a + 1 + n
      · rw [if_pos hin, if_pos (by omega)]
        ring
      · rw [if_neg hin, if_neg (by omega)]
        ring

/-- Pointwise sum over a range of per-month bucket sums collapses to a single
filtered sum, when each element belongs to exactly the bucket of its own
month index. -/
theorem sum_map_add {α : Type} (l : List α) (f g : α → ℚ) :
    (l.map (fun i => f i + g i)).sum = (l.map f).sum + (l.map g).sum := by
  induction l with
  | nil => simp
  | cons a l ih =>
    simp only [List.map_cons, List.sum_cons, ih]
    ring

theorem sum_buckets {α : Type} (l : List α) (f : α → ℚ) (idx : α → Nat)
    (G : Nat → α → Bool) (a n : Nat)
    (hG : ∀ x ∈ l, ∀ i, a ≤ i → i < a + n → (G i x = true ↔ i = idx x))
    (hbound : ∀ x ∈ l, a ≤ idx x) :
    ((List.range' a n).map (fun i => qsum (l.filter (G i)) f)).sum
      = qsum (l.filter (fun x => decide (idx x < a + n))) f := by
  induction l with
  | nil => simp [qsum]
  | cons x l ih =>
    have hGx := hG x (List.mem_cons_self x l)
    have hbx := hbound x (List.mem_cons_self x l)
    have ihl := ih (fun v hv => hG v (List.mem_cons_of_mem x hv))
      (fun v hv => hbound v (List.mem_cons_of_mem x hv))
    have hsplit : ∀ i : Nat, i ∈ List.range' a n →
        qsum ((x :: l).filter (G i)) f
          = (if i = idx x then f x else 0) + qsum (l.filter (G i)) f := by
      intro i hi
      rw [List.mem_range'_1] at hi
      rw [qsum_filter_cons]
      congr 1
      by_cases h : i = idx x
      · rw [if_pos ((hGx i hi.1 hi.2).mpr h), if_pos h]
      · rw [if_neg h, if_neg]
        intro hc
        exact h ((hGx i hi.1 hi.2).mp hc)
    rw [List.map_congr_left hsplit, sum_map_add, ihl, sum_range'_ite,
      qsum_filter_cons]
    congr 1
    by_cases hlt : idx x < a + n
    · rw [if_pos ⟨hbx, hlt⟩, if_pos (by simp [hlt])]
    · rw [if_neg (by omega), if_neg (by simp [hlt])]

theorem foldl_min_le_init (l : List Nat) (t : Nat) : l.foldl min t ≤ t := by
  induction l generalizing t with
  | nil => exact Nat.le_refl t
  | cons a l ih =>
    simp only [List.foldl_cons]
    exact Nat.le_trans (ih (min t a)) (Nat.min_le_left t a)

theorem foldl_min_le_mem (l : List Nat) (t : Nat) :
    ∀ x ∈ l, l.foldl min t ≤ x := by
  induction l generalizing t with
  | nil =>
    intro x hx
    cases hx
  | cons a l ih =>
    intro x hx
    simp only [List.foldl_cons]
    rcases List.mem_cons.mp hx with h | h
    · subst h
      exact Nat.le_trans (foldl_min_le_init l (min t x)) (Nat.min_le_right t x)
    · exact ih (min t a) x h

/-! ## Lemmas about the fold computing earliest/latest sale dates -/

theorem dateMin_cases (a b : Date) : dateMin a b = a ∨ dateMin a b = b := by
  unfold dateMin
  split
  · exact Or.inl rfl
  · exact Or.inr rfl

theorem dateMin_le_left (a b : Date) : dateLeB (dateMin a b) a = true := by
  unfold dateMin
  split
  · exact dateLeB_refl a
  · rcases dateLeB_total a b with h | h
    · simp_all
    · exact h

theorem dateMin_le_right (a b : Date) : dateLeB (dateMin a b) b = true := by
  unfold dateMin
  split
  · assumption
  · exact dateLeB_refl b

theorem dateMax_cases (a b : Date) : dateMax a b = a ∨ dateMax a b = b := by
  unfold dateMax
  split
  · exact Or.inr rfl
  · exact Or.inl rfl

theorem le_dateMax_left (a b : Date) : dateLeB a (dateMax a b) = true := by
  unfold dateMax
  split
  · assumption
  · exact dateLeB_refl a

theorem le_dateMax_right (a b : Date) : dateLeB b (dateMax a b) = true := by
  unfold dateMax
  split
  · exact dateLeB_refl b
  · rcases dateLeB_total a b with h | h
    · simp_all
    · exact h

theorem foldl_dateMin_mem (l : List Date) (a : Date) :
    l.foldl dateMin a ∈ a :: l := by
  induction l generalizing a with
  | nil => exact List.mem_cons_self a []
  | cons b l ih =>
    simp only [List.foldl_cons]
    rcases List.mem_cons.mp (ih (dateMin a b)) with h | h
    · rw [h]
      rcases dateMin_cases a b with h2 | h2
      · rw [h2]
        exact List.mem_cons_self a (b :: l)
      · rw [h2]
        exact List.mem_cons_of_mem a (List.mem_cons_self b l)
    · exact List.mem_cons_of_mem a (List.mem_cons_of_mem b h)

theorem foldl_dateMin_le (l : List Date) (a : Date) :
    dateLeB (l.foldl dateMin a) a = true ∧
      ∀ x ∈ l, dateLeB (l.foldl dateMin a) x = true := by
  induction l generalizing a with
  | nil =>
    exact ⟨dateLeB_refl a, fun x hx => absurd hx (List.not_mem_nil x)⟩
  | cons b l ih =>
    simp only [List.foldl_cons]
    obtain ⟨h1, h2⟩ := ih (dateMin a b)
    refine ⟨dateLeB_trans h1 (dateMin_le_left a b), fun x hx => ?_⟩
    rcases List.mem_cons.mp hx with h | h
    · rw [h]
      exact dateLeB_trans h1 (dateMin_le_right a b)
    · exact h2 x h

theorem foldl_dateMax_mem (l : List Date) (a : Date) :
    l.foldl dateMax a ∈ a :: l := by
  induction l generalizing a with
  | nil => exact List.mem_cons_self a []
  | cons b l ih =>
    simp only [List.foldl_cons]
    rcases List.mem_cons.mp (ih (dateMax a b)) with h | h
    · rw [h]
      rcases dateMax_cases a b with h2 | h2
      · rw [h2]
        exact List.mem_cons_self a (b :: l)
      · rw [h2]
        exact List.mem_cons_of_mem a (List.mem_cons_self b l)
    · exact List.mem_cons_of_mem a (List.mem_cons_of_mem b h)

theorem foldl_dateMax_ge (l : List Date) (a : Date) :
    dateLeB a (l.foldl dateMax a) = true ∧
      ∀ x ∈ l, dateLeB x (l.foldl dateMax a) = true := by
  induction l generalizing a with
  | nil =>
    exact ⟨dateLeB_refl a, fun x hx => absurd hx (List.not_mem_nil x)⟩
  | cons b l ih =>
    simp only [List.foldl_cons]
    obtain ⟨h1, h2⟩ := ih (dateMax a b)
    refine ⟨dateLeB_trans (le_dateMax_left a b) h1, fun x hx => ?_⟩
    rcases List.mem_cons.mp hx with h | h
    · rw [h]
      exact dateLeB_trans (le_dateMax_right a b) h1
    · exact h2 x h

/-! ## State lemmas: balance writes never affect the ledger inputs -/

/-- Two states with the same sales, payments and allocations (they may differ
in the materialized balance table). -/
def sameCore (s t : State) : Prop :=
  t.sales = s.sales ∧ t.payments = s.payments ∧ t.allocs = s.allocs

theorem sameCore_refl (s : State) : sameCore s s := ⟨rfl, rfl, rfl⟩

theorem sameCore_trans {s t u : State} (h1 : sameCore s t)
    (h2 : sameCore t u) : sameCore s u := by
  obtain ⟨a1, b1, c1⟩ := h1
  obtain ⟨a2, b2, c2⟩ := h2
  exact ⟨a2.trans a1, b2.trans b1, c2.trans c1⟩

theorem sameCore_setRow (s : State) (y m : Nat) (r : RecalcOut) :
    sameCore s (setRow s y m r) := ⟨rfl, rfl, rfl⟩

theorem sameCore_getOrCreate (s : State) (y m : Nat) :
    sameCore s (getOrCreate s y m) := by
  unfold getOrCreate
  cases findRow s y m
  · exact ⟨rfl, rfl, rfl⟩
  · exact ⟨rfl, rfl, rfl⟩

theorem recalcOut_congr {s t : State} (h : sameCore s t) (y m : Nat) :
    recalcOut t y m = recalcOut s y m := by
  obtain ⟨h1, h2, h3⟩ := h
  unfold recalcOut monthSales directPayments allocatedPayments
  rw [h1, h2, h3]

/-! ## Row lookup and write lemmas -/

theorem findRow_setRow_same (s : State) (y m : Nat) (r : RecalcOut) :
    findRow (setRow s y m r) y m = some ⟨y, m, r.sales, r.payments, r.is_paid⟩ := by
  unfold findRow setRow
  simp [List.find?_cons]

theorem findRow_setRow_other (s : State) (y m y2 m2 : Nat) (r : RecalcOut)
    (h : ¬(y2 = y ∧ m2 = m)) :
    findRow (setRow s y m r) y2 m2 = findRow s y2 m2 := by
  unfold findRow setRow
  simp only
  rw [List.find?_cons_of_neg]
  · exact find?_filter_eq s.balances _ _ (by
      intro b hb
      simp only [Bool.not_eq_false', Bool.and_eq_true, beq_iff_eq] at hb
      cases hc : (b.year == y2 && b.month == m2)
      · rfl
      · exfalso
        simp only [Bool.and_eq_true, beq_iff_eq] at hc
        exact h ⟨by omega, by omega⟩)
  · simp only [Bool.and_eq_true, beq_iff_eq, not_and]
    intro hy hm
    exact h ⟨hy.symm, hm.symm⟩

theorem findRow_getOrCreate_other (s : State) (y m y2 m2 : Nat)
    (h : ¬(y2 = y ∧ m2 = m)) :
    findRow (getOrCreate s y m) y2 m2 = findRow s y2 m2 := by
  unfold getOrCreate
  cases hf : findRow s y m
  · simp only
    unfold findRow
    rw [List.find?_cons_of_neg]
    simp only [Bool.and_eq_true, beq_iff_eq, not_and]
    intro hy hm
    exact h ⟨hy.symm, hm.symm⟩
  · rfl

/-- Every balance row in the state after a get-or-create followed by a save of
the (y, m) row is either the saved row or a row already present before. -/
theorem mem_setRow_getOrCreate {b : BalanceRow} (s : State) (y m : Nat)
    (r : RecalcOut)
    (hb : b ∈ (setRow (getOrCreate s y m) y m r).balances) :
    b = ⟨y, m, r.sales, r.payments, r.is_paid⟩ ∨ b ∈ s.balances := by
  unfold setRow at hb
  simp only [List.mem_cons] at hb
  rcases hb with h | h
  · exact Or.inl h
  · right
    have hpred := List.of_mem_filter h
    have hmem := List.mem_of_mem_filter h
    unfold getOrCreate at hmem
    split at hmem
    · exact hmem
    · simp only [List.mem_cons] at hmem
      rcases hmem with h2 | h2
      · exfalso
        rw [h2] at hpred
        simp at hpred
      · exact h2

/-! ## The recalculate step -/

theorem recalcM_ok (s : State) (y m : Nat) (h1 : 1 ≤ m) (h2 : m ≤ 12) :
    recalcM s y m = .ok (recalcOut s y m, setRow s y m (recalcOut s y m)) := by
  unfold recalcM
  rw [if_pos ⟨h1, h2⟩]

theorem recalcM_error (s : State) (y m : Nat) (h : ¬(1 ≤ m ∧ m ≤ 12)) :
    recalcM s y m = .error "ValueError: month must be in 1..12" := by
  unfold recalcM
  rw [if_neg h]

/-- The specific-month branch of `update_monthly_balances` on a truthy,
in-range month: get-or-create then recalculate and save. -/
theorem updateMB_specific (s : State) (y m : Nat) (hy : 1 ≤ y) (h1 : 1 ≤ m)
    (h2 : m ≤ 12) :
    updateMonthlyBalances s (some y) (some m)
      = (.ok (.one (recalcOut s y m)),
          setRow (getOrCreate s y m) y m (recalcOut s y m)) := by
  unfold updateMonthlyBalances
  rw [if_pos (by simp [truthy]; omega)]
  simp only [Option.getD_some]
  rw [recalcM_ok _ y m h1 h2,
    recalcOut_congr (sameCore_getOrCreate s y m) y m]

/-- The specific-month branch on a truthy but out-of-range month: the
default row is created and committed, then `datetime.date` raises. -/
theorem updateMB_specific_error (s : State) (y m : Nat) (hy : 1 ≤ y)
    (hm : 13 ≤ m) :
    updateMonthlyBalances s (some y) (some m)
      = (.error "ValueError: month must be in 1..12", getOrCreate s y m) := by
  unfold updateMonthlyBalances
  rw [if_pos (by simp [truthy]; omega)]
  simp only [Option.getD_some]
  rw [recalcM_error _ y m (by omega)]

/-! ## The stored-row invariant: every persisted row was written by
`recalculate`, so its `is_paid` flag matches its stored amounts. -/

/-- Well-formedness of the balance table: each stored row has
`is_paid = (payment_amount >= sales_amount)` over its own stored amounts.
This holds for every row ever written by `recalculate` (the single writer
of `MonthlyBalance` rows in the application). -/
def RowsInv (s : State) : Prop :=
  ∀ b ∈ s.balances, b.is_paid = decide (b.sales_amount ≤ b.payment_amount)

theorem RowsInv_setRow_getOrCreate (s t : State) (y m : Nat)
    (hs : RowsInv s) :
    RowsInv (setRow (getOrCreate s y m) y m (recalcOut t y m)) := by
  intro b hb
  rcases mem_setRow_getOrCreate s y m (recalcOut t y m) hb with h | h
  · rw [h]
    rfl
  · exact hs b h

/-! ## Sweep lemmas -/

/-- Over any list of in-range months, `sweepGo` succeeds, returns exactly one
recalculation result per listed month (each computed from the unchanged
ledger inputs), and only touches the balance table. -/
theorem sweepGo_ok (L : List (Nat × Nat)) (s : State)
    (hL : ∀ p ∈ L, 1 ≤ p.2 ∧ p.2 ≤ 12) :
    ∃ s2, sweepGo s L
        = (.ok (L.map (fun p => ⟨recalcOut s p.1 p.2, p.1, p.2⟩)), s2) ∧
      sameCore s s2 ∧ (RowsInv s → RowsInv s2) := by
  induction L generalizing s with
  | nil => exact ⟨s, rfl, sameCore_refl s, fun h => h⟩
  | cons p rest ih =>
    obtain ⟨y, m⟩ := p
    obtain ⟨hp1, hp2⟩ := hL (y, m) (List.mem_cons_self (y, m) rest)
    have hrec := recalcM_ok (getOrCreate s y m) y m hp1 hp2
    have hcore1 : sameCore s (setRow (getOrCreate s y m) y m
        (recalcOut (getOrCreate s y m) y m)) :=
      sameCore_trans (sameCore_getOrCreate s y m) (sameCore_setRow _ y m _)
    obtain ⟨s2, hs2, hcore2, hinv2⟩ :=
      ih (setRow (getOrCreate s y m) y m (recalcOut (getOrCreate s y m) y m))
        (fun q hq => hL q (List.mem_cons_of_mem (y, m) hq))
    refine ⟨s2, ?_, sameCore_trans hcore1 hcore2, ?_⟩
    · unfold sweepGo
      rw [hrec]
      simp only
      rw [hs2]
      have hmapeq : rest.map (fun p => SweepItem.mk
            (recalcOut (setRow (getOrCreate s y m) y m
              (recalcOut (getOrCreate s y m) y m)) p.1 p.2) p.1 p.2)
          = rest.map (fun p => SweepItem.mk (recalcOut s p.1 p.2) p.1 p.2) :=
        List.map_congr_left (fun q _ => by
          rw [recalcOut_congr hcore1 q.1 q.2])
      rw [List.map_cons, hmapeq,
        recalcOut_congr (sameCore_getOrCreate s y m) y m]
    · intro hinv
      exact hinv2 (RowsInv_setRow_getOrCreate s (getOrCreate s y m) y m hinv)

/-- Every pair produced by `monthRange` has an in-range month. -/
theorem monthRange_valid (a b : Nat) :
    ∀ p ∈ monthRange a b, 1 ≤ p.2 ∧ p.2 ≤ 12 := by
  intro p hp
  unfold monthRange at hp
  obtain ⟨i, _, hi⟩ := List.mem_map.mp hp
  rw [← hi]
  exact idxMonth_bounds i

/-- Month indices of `monthRange a b` are exactly the consecutive integers
from `a` through `b`. -/
theorem monthRange_idx (a b : Nat) :
    (monthRange a b).map (fun p => monthIdx p.1 p.2)
      = List.range' a (b + 1 - a) := by
  unfold monthRange
  rw [List.map_map]
  exact List.map_congr_left (fun i _ => monthIdx_idx i) |>.trans (List.map_id _)

/-- The sweep branch of `update_monthly_balances` (no year/month given). -/
theorem updateMB_sweep (s : State) (dmin dmax : Date)
    (hmin : minSaleDate s.sales = some dmin)
    (hmax : maxSaleDate s.sales = some dmax) :
    ∃ s2, updateMonthlyBalances s none none
        = (.ok (.many ((monthRange (monthIdx dmin.year dmin.month)
              (monthIdx dmax.year dmax.month)).map
            (fun p => ⟨recalcOut s p.1 p.2, p.1, p.2⟩))), s2) ∧
      sameCore s s2 ∧ (RowsInv s → RowsInv s2) := by
  obtain ⟨s2, hgo, hcore, hinv⟩ := sweepGo_ok
    (monthRange (monthIdx dmin.year dmin.month) (monthIdx dmax.year dmax.month))
    s (monthRange_valid _ _)
  refine ⟨s2, ?_, hcore, hinv⟩
  unfold updateMonthlyBalances
  rw [if_neg (by simp [truthy])]
  rw [hmin, hmax]
  simp only
  rw [hgo]

/-- The state after `update_monthly_balances(customer)` (full sweep) keeps
the ledger inputs and the row invariant. -/
theorem updateMB_none_state (s : State) (hinv : RowsInv s) :
    sameCore s (updateMonthlyBalances s none none).2 ∧
      RowsInv (updateMonthlyBalances s none none).2 := by
  cases hmin : minSaleDate s.sales with
  | none =>
    unfold updateMonthlyBalances
    rw [if_neg (by simp [truthy])]
    rw [hmin]
    cases maxSaleDate s.sales with
    | none => exact ⟨sameCore_refl s, hinv⟩
    | some dmax => exact ⟨sameCore_refl s, hinv⟩
  | some dmin =>
    have hne : s.sales ≠ [] := by
      intro hnil
      rw [hnil] at hmin
      simp [minSaleDate] at hmin
    cases hmax : maxSaleDate s.sales with
    | none =>
      exfalso
      obtain ⟨x, l, hxl⟩ := List.exists_cons_of_ne_nil hne
      rw [hxl] at hmax
      simp [maxSaleDate] at hmax
    | some dmax =>
      obtain ⟨s2, heq, hcore, hinv2⟩ := updateMB_sweep s dmin dmax hmin hmax
      rw [heq]
      exact ⟨hcore, hinv2 hinv⟩

/-! ## Recalculation-loop lemmas (used by `distribute_to_months`) -/

/-- Running the per-month recalculation loop over in-range months with
positive years always succeeds; afterwards every listed month's stored row is
the recalculation snapshot of the (unchanged) ledger inputs, and every other
row is untouched. -/
theorem recalcMonths_ok (L : List (Nat × Nat)) (s : State)
    (hL : ∀ p ∈ L, 1 ≤ p.1 ∧ 1 ≤ p.2 ∧ p.2 ≤ 12) :
    ∃ s2, recalcMonths s L = (.ok (), s2) ∧ sameCore s s2 ∧
      (∀ p ∈ L, findRow s2 p.1 p.2 = some ⟨p.1, p.2,
        (recalcOut s p.1 p.2).sales, (recalcOut s p.1 p.2).payments,
        (recalcOut s p.1 p.2).is_paid⟩) ∧
      (∀ y m, (y, m) ∉ L → findRow s2 y m = findRow s y m) := by
  induction L generalizing s with
  | nil =>
    exact ⟨s, rfl, sameCore_refl s, fun p hp => absurd hp (List.not_mem_nil p),
      fun y m _ => rfl⟩
  | cons p rest ih =>
    obtain ⟨y, m⟩ := p
    obtain ⟨hy, hm1, hm2⟩ := hL (y, m) (List.mem_cons_self (y, m) rest)
    set s1 := setRow (getOrCreate s y m) y m (recalcOut s y m) with hs1def
    have hupd : updateMonthlyBalances s (some y) (some m)
        = (.ok (.one (recalcOut s y m)), s1) := updateMB_specific s y m hy hm1 hm2
    have hcore1 : sameCore s s1 :=
      sameCore_trans (sameCore_getOrCreate s y m) (sameCore_setRow _ y m _)
    obtain ⟨s2, hrec, hcore2, hrows, hother⟩ :=
      ih s1 (fun q hq => hL q (List.mem_cons_of_mem (y, m) hq))
    have hcore : sameCore s s2 := sameCore_trans hcore1 hcore2
    refine ⟨s2, ?_, hcore, ?_, ?_⟩
    · unfold recalcMonths
      rw [hupd]
      exact hrec
    · intro q hq
      rcases List.mem_cons.mp hq with h | h
      · by_cases hqr : q ∈ rest
        · have := hrows q hqr
          rw [this]
          congr 2 <;> rw [recalcOut_congr hcore1 q.1 q.2]
        · subst h
          rw [hother y m hqr, hs1def, findRow_setRow_same]
      · have := hrows q h
        rw [this]
        congr 2 <;> rw [recalcOut_congr hcore1 q.1 q.2]
    · intro y2 m2 hnot
      have hnr : (y2, m2) ∉ rest := fun hc =>
        hnot (List.mem_cons_of_mem (y, m) hc)
      have hnp : ¬(y2 = y ∧ m2 = m) := by
        rintro ⟨rfl, rfl⟩
        exact hnot (List.mem_cons_self (y2, m2) rest)
      rw [hother y2 m2 hnr, hs1def, findRow_setRow_other _ y m y2 m2 _ hnp,
        findRow_getOrCreate_other s y m y2 m2 hnp]

/-! ## Helper facts for the claim theorems -/

theorem bool_eq_of_iff {a b : Bool} (h : a = true ↔ b = true) : a = b := by
  cases a <;> cases b <;> simp_all

theorem setRow_setRow (s : State) (y m : Nat) (r r2 : RecalcOut) :
    setRow (setRow s y m r) y m r2 = setRow s y m r2 := by
  unfold setRow
  simp only [State.mk.injEq, true_and]
  rw [List.filter_cons_of_neg (by simp), List.filter_filter]
  simp only [Bool.and_self]

/-! ## Claim theorems -/

/-- C1: for every customer state, year, and month in 1..12,
`MonthlyBalance.recalculate` sets `sales_amount` to the sum of
quantity × rate over the Charges dated inside the calendar month (both
endpoints inclusive, correct across year-end and leap February), sets
`payment_amount` to the direct Credits targeting (year, month) plus the
Allocations targeting (year, month), sets
`is_paid = (payment_amount ≥ sales_amount)` by exact comparison, persists
exactly that row (leaving every other row unchanged), and returns the same
snapshot. -/
theorem C1_recalculate_correct (s : State) (y m : Nat) (hm1 : 1 ≤ m)
    (hm2 : m ≤ 12) (hd : ∀ x ∈ s.sales, ValidDate x.date) :
    ∃ r s2, recalcM s y m = .ok (r, s2) ∧
      r.sales = qsum (s.sales.filter (fun x =>
        x.date.year == y && x.date.month == m))
        (fun x => x.quantity * x.rate) ∧
      r.payments = directPayments s y m + allocatedPayments s y m ∧
      r.is_paid = decide (r.sales ≤ r.payments) ∧
      r.balance = r.sales - r.payments ∧
      findRow s2 y m = some ⟨y, m, r.sales, r.payments, r.is_paid⟩ ∧
      (∀ y2 m2, ¬(y2 = y ∧ m2 = m) → findRow s2 y2 m2 = findRow s y2 m2) := by
  refine ⟨recalcOut s y m, setRow s y m (recalcOut s y m),
    recalcM_ok s y m hm1 hm2, ?_, rfl, rfl, rfl, findRow_setRow_same s y m _,
    fun y2 m2 h => findRow_setRow_other s y m y2 m2 _ h⟩
  show monthSales s y m = _
  unfold monthSales
  congr 1
  refine List.filter_congr (fun x hx => bool_eq_of_iff ?_)
  rw [inMonth_iff y m x.date hm1 hm2 (hd x hx)]
  simp

/-- Concrete ledger used by the witness of C1: a leap-February 2024 charge,
a boundary charge on March 1st, one direct credit and one allocation for
February 2024. -/
def exC1 : State :=
  ⟨[⟨⟨2024, 2, 29⟩, 2, 30⟩, ⟨⟨2024, 3, 1⟩, 1, 50⟩],
    [⟨0, ⟨2024, 3, 5⟩, 60, some 2, some 2024⟩],
    [⟨0, 2, 2024, 10⟩], []⟩

theorem C1_recalculate_correct_witness :
    (1 ≤ 2) ∧ (2 ≤ 12) ∧ (∀ x ∈ exC1.sales, ValidDate x.date) ∧
    (∃ r s2, recalcM exC1 2024 2 = .ok (r, s2) ∧
      r.sales = qsum (exC1.sales.filter (fun x =>
        x.date.year == 2024 && x.date.month == 2))
        (fun x => x.quantity * x.rate) ∧
      r.payments = directPayments exC1 2024 2 + allocatedPayments exC1 2024 2 ∧
      r.is_paid = decide (r.sales ≤ r.payments) ∧
      r.balance = r.sales - r.payments ∧
      findRow s2 2024 2 = some ⟨2024, 2, r.sales, r.payments, r.is_paid⟩ ∧
      (∀ y2 m2, ¬(y2 = 2024 ∧ m2 = 2) →
        findRow s2 y2 m2 = findRow exC1 y2 m2)) :=
  ⟨by decide, by decide, by decide,
    C1_recalculate_correct exC1 2024 2 (by decide) (by decide) (by decide)⟩

/-- C2: `recalculate` is idempotent — a second call with no intervening
change to Charges, Credits, or Allocations returns the identical result and
leaves the stored MonthlyBalance state entirely unchanged. -/
theorem C2_recalculate_idempotent (s : State) (y m : Nat) (r : RecalcOut)
    (s2 : State) (h : recalcM s y m = .ok (r, s2)) :
    recalcM s2 y m = .ok (r, s2) := by
  unfold recalcM at h ⊢
  by_cases hm : 1 ≤ m ∧ m ≤ 12
  · rw [if_pos hm] at h
    rw [if_pos hm]
    have h2 : recalcOut s y m = r ∧ setRow s y m (recalcOut s y m) = s2 :=
      (Prod.mk.injEq ..).mp (Except.ok.inj h)
    obtain ⟨hr, hs⟩ := h2
    subst hr
    subst hs
    rw [recalcOut_congr (sameCore_setRow s y m (recalcOut s y m)) y m,
      setRow_setRow]
  · rw [if_neg hm] at h
    exact absurd h (by simp)

/-- Concrete ledger used by the witness of C2. -/
def exC2 : State := ⟨[⟨⟨2025, 1, 10⟩, 10, 50⟩], [], [], []⟩

theorem C2_recalculate_idempotent_witness :
    recalcM (setRow exC2 2025 1 (recalcOut exC2 2025 1)) 2025 1
      = .ok (recalcOut exC2 2025 1, setRow exC2 2025 1 (recalcOut exC2 2025 1)) :=
  C2_recalculate_idempotent exC2 2025 1 _ _
    (recalcM_ok exC2 2025 1 (by norm_num) (by norm_num))

/-- C3: when the allocation amounts sum to strictly more than the credit
amount, `distribute_to_months` fails with the validation error and the
stored state — existing allocations and all MonthlyBalance rows included —
is returned exactly as it was. -/
theorem C3_overallocation_rejected (s : State) (p : Payment)
    (inputs : List AllocInput) (hamt : 0 ≤ p.amount)
    (hsum : p.amount < qsum inputs (fun a => a.amount)) :
    distributeToMonths s p inputs
      = (.error "ValueError: Total allocated amount exceeds payment amount",
          s) := by
  have hne : inputs ≠ [] := by
    intro h
    rw [h] at hsum
    simp only [qsum, List.map_nil, List.sum_nil] at hsum
    exact absurd (hamt.trans_lt hsum) (lt_irrefl 0)
  unfold distributeToMonths distributeChosen
  rw [if_neg (by simpa [List.isEmpty_iff] using hne)]
  simp only
  rw [if_pos hsum]

/-- Concrete ledger used by the witness of C3: a credit of 50 with existing
state, and a proposed allocation list summing to 100. -/
def exC3 : State :=
  ⟨[⟨⟨2025, 1, 10⟩, 1, 40⟩], [⟨3, ⟨2025, 1, 20⟩, 50, none, none⟩],
    [⟨3, 1, 2025, 20⟩], [⟨2025, 1, 40, 20, false⟩]⟩

theorem C3_overallocation_rejected_witness :
    (0 ≤ (⟨3, ⟨2025, 1, 20⟩, 50, none, none⟩ : Payment).amount) ∧
    ((⟨3, ⟨2025, 1, 20⟩, 50, none, none⟩ : Payment).amount
        < qsum [(⟨1, 2025, 100⟩ : AllocInput)] (fun a => a.amount)) ∧
    distributeToMonths exC3 ⟨3, ⟨2025, 1, 20⟩, 50, none, none⟩
        [⟨1, 2025, 100⟩]
      = (.error "ValueError: Total allocated amount exceeds payment amount",
          exC3) :=
  ⟨by norm_num, by norm_num [qsum],
    C3_overallocation_rejected exC3 ⟨3, ⟨2025, 1, 20⟩, 50, none, none⟩
      [⟨1, 2025, 100⟩] (by norm_num) (by norm_num [qsum])⟩

/-! ## Unfolding lemmas for `distribute_to_months` -/

theorem distribute_none (s : State) (p : Payment) (inputs : List AllocInput)
    (h : distributeChosen p inputs = none) :
    distributeToMonths s p inputs = (.ok [], s) := by
  unfold distributeToMonths
  rw [h]

theorem distribute_some (s : State) (p : Payment)
    (inputs allocs : List AllocInput)
    (h : distributeChosen p inputs = some allocs) :
    distributeToMonths s p inputs =
      (if p.amount < qsum allocs (fun a => a.amount) then
        (.error "ValueError: Total allocated amount exceeds payment amount", s)
      else
        match recalcMonths
            { s with allocs := (s.allocs.filter (fun a => a.payment != p.id))
                ++ allocs.map (fun a => Alloc.mk p.id a.month a.year a.amount) }
            ((allocs.map (fun a => (a.year, a.month))).dedup) with
        | (.ok _, s2) =>
          (.ok (allocs.map (fun a => Alloc.mk p.id a.month a.year a.amount)),
            s2)
        | (.error e, _) => (.error e, s)) := by
  unfold distributeToMonths
  rw [h]

theorem distributeChosen_nonempty (p : Payment) (inputs : List AllocInput)
    (hne : inputs ≠ []) : distributeChosen p inputs = some inputs := by
  unfold distributeChosen
  rw [if_neg (by simpa [List.isEmpty_iff] using hne)]

/-- C4 (amended): `distribute_to_months` deletes the credit's existing
allocations, inserts the new set, and recalculates exactly the months of the
NEW allocation set — the stored row of every month outside the new set
(in particular a month touched only by the deleted old set) is left exactly
as it was, not recalculated. -/
theorem C4_distribute_recalcs_new_months (s : State) (p : Payment)
    (inputs : List AllocInput) (hne : inputs ≠ [])
    (hv : ∀ a ∈ inputs, 1 ≤ a.year ∧ 1 ≤ a.month ∧ a.month ≤ 12)
    (hsum : qsum inputs (fun a => a.amount) ≤ p.amount) :
    ∃ s2, distributeToMonths s p inputs
        = (.ok (inputs.map (fun a => Alloc.mk p.id a.month a.year a.amount)),
            s2) ∧
      s2.allocs = (s.allocs.filter (fun a => a.payment != p.id))
        ++ inputs.map (fun a => Alloc.mk p.id a.month a.year a.amount) ∧
      s2.sales = s.sales ∧ s2.payments = s.payments ∧
      (∀ a ∈ inputs, findRow s2 a.year a.month
        = some ⟨a.year, a.month, (recalcOut s2 a.year a.month).sales,
            (recalcOut s2 a.year a.month).payments,
            (recalcOut s2 a.year a.month).is_paid⟩) ∧
      (∀ y m, (y, m) ∉ inputs.map (fun a => (a.year, a.month)) →
        findRow s2 y m = findRow s y m) := by
  have hch := distributeChosen_nonempty p inputs hne
  rw [distribute_some s p inputs inputs hch, if_neg (not_lt.mpr hsum)]
  obtain ⟨s2, hrec, hcore, hrows, hother⟩ :=
    recalcMonths_ok ((inputs.map (fun a => (a.year, a.month))).dedup)
      { s with allocs := (s.allocs.filter (fun a => a.payment != p.id))
          ++ inputs.map (fun a => Alloc.mk p.id a.month a.year a.amount) }
      (by
        intro q hq
        obtain ⟨a, ha, haq⟩ := List.mem_map.mp (List.mem_dedup.mp hq)
        obtain ⟨h1, h2, h3⟩ := hv a ha
        rw [← haq]
        exact ⟨h1, h2, h3⟩)
  rw [hrec]
  refine ⟨s2, rfl, hcore.2.2, hcore.1, hcore.2.1, ?_, ?_⟩
  · intro a ha
    have hmem : (a.year, a.month)
        ∈ (inputs.map (fun v => (v.year, v.month))).dedup :=
      List.mem_dedup.mpr (List.mem_map.mpr ⟨a, ha, rfl⟩)
    have := hrows (a.year, a.month) hmem
    rw [this]
    congr 2 <;> rw [recalcOut_congr hcore a.year a.month]
  · intro y m hnot
    exact hother y m (fun hc => hnot (List.mem_dedup.mp hc))

/-- Concrete counterexample state for C4: credit 0 of amount 100 currently
allocated wholly to January 2025, with January's materialized row showing
that payment. -/
def exC4 : State :=
  ⟨[], [⟨0, ⟨2025, 1, 5⟩, 100, none, none⟩],
    [⟨0, 1, 2025, 100⟩], [⟨2025, 1, 0, 100, true⟩]⟩

/-- The credit being redistributed in the C4 counterexample. -/
def exC4p : Payment := ⟨0, ⟨2025, 1, 5⟩, 100, none, none⟩

/-- The new allocation list of the C4 counterexample: February 2025 only. -/
def exC4in : List AllocInput := [⟨2, 2025, 100⟩]

/-- C4 counterexample: redistributing credit 0 from January 2025 to February
2025 succeeds, yet January 2025 — a month in the union of old and new
allocation months (it carried the old allocation) — is NOT recalculated: its
stored row still shows payment_amount 100 although recalculating it against
the final stored data would store payment_amount 0. -/
theorem C4_distribute_counterexample :
    exC4.allocs.filter (fun a => a.payment == exC4p.id)
        = [⟨0, 1, 2025, 100⟩] ∧
    (distributeToMonths exC4 exC4p exC4in).1 = .ok [⟨0, 2, 2025, 100⟩] ∧
    findRow (distributeToMonths exC4 exC4p exC4in).2 2025 1
      ≠ some ⟨2025, 1,
          (recalcOut (distributeToMonths exC4 exC4p exC4in).2 2025 1).sales,
          (recalcOut (distributeToMonths exC4 exC4p exC4in).2 2025 1).payments,
          (recalcOut (distributeToMonths exC4 exC4p exC4in).2 2025 1).is_paid⟩
    := by
  have hch : distributeChosen exC4p exC4in = some exC4in := rfl
  obtain ⟨s2, hrec, hcore, hrows, hother⟩ :=
    recalcMonths_ok [(2025, 2)]
      { exC4 with allocs :=
          (exC4.allocs.filter (fun a => a.payment != exC4p.id))
            ++ exC4in.map (fun a => Alloc.mk exC4p.id a.month a.year a.amount) }
      (by norm_num)
  have heq : distributeToMonths exC4 exC4p exC4in
      = (.ok [⟨0, 2, 2025, 100⟩], s2) := by
    rw [distribute_some exC4 exC4p exC4in exC4in hch,
      if_neg (by norm_num [qsum, exC4in, exC4p])]
    have hded : ((exC4in.map (fun a => (a.year, a.month))).dedup)
        = [(2025, 2)] := rfl
    rw [hded, hrec]
    rfl
  obtain ⟨hsales, hpays, hallocs⟩ := hcore
  refine ⟨rfl, by rw [heq], ?_⟩
  rw [heq]
  simp only
  have hfind : findRow s2 2025 1 = some ⟨2025, 1, 0, 100, true⟩ := by
    rw [hother 2025 1 (by norm_num)]
    rfl
  have hpay0 : (recalcOut s2 2025 1).payments = 0 := by
    show directPayments s2 2025 1 + allocatedPayments s2 2025 1 = 0
    have hd : directPayments s2 2025 1 = 0 := by
      unfold directPayments
      rw [hpays]
      rfl
    have ha : allocatedPayments s2 2025 1 = 0 := by
      unfold allocatedPayments
      rw [hallocs]
      rfl
    rw [hd, ha]
    norm_num
  rw [hfind, hpay0]
  intro hc
  have := (Option.some.injEq ..).mp hc
  have h100 : (100 : ℚ) = 0 := ((BalanceRow.mk.injEq ..).mp this).2.2.2.1
  norm_num at h100

/-- Ledger used by the witness of C4: credit 9 of amount 80 with an old
allocation to March 2025, redistributed to April and May 2025. -/
def exC4w : State :=
  ⟨[⟨⟨2025, 4, 2⟩, 1, 60⟩], [⟨9, ⟨2025, 5, 1⟩, 80, none, none⟩],
    [⟨9, 3, 2025, 80⟩], []⟩

theorem C4_distribute_recalcs_new_months_witness :
    (([⟨4, 2025, 60⟩, ⟨5, 2025, 20⟩] : List AllocInput) ≠ []) ∧
    (∀ a ∈ ([⟨4, 2025, 60⟩, ⟨5, 2025, 20⟩] : List AllocInput),
      1 ≤ a.year ∧ 1 ≤ a.month ∧ a.month ≤ 12) ∧
    (qsum ([⟨4, 2025, 60⟩, ⟨5, 2025, 20⟩] : List AllocInput)
        (fun a => a.amount)
      ≤ (⟨9, ⟨2025, 5, 1⟩, 80, none, none⟩ : Payment).amount) ∧
    (∃ s2, distributeToMonths exC4w ⟨9, ⟨2025, 5, 1⟩, 80, none, none⟩
          [⟨4, 2025, 60⟩, ⟨5, 2025, 20⟩]
        = (.ok (([⟨4, 2025, 60⟩, ⟨5, 2025, 20⟩] : List AllocInput).map
            (fun a => Alloc.mk 9 a.month a.year a.amount)), s2) ∧
      s2.allocs = (exC4w.allocs.filter (fun a => a.payment != 9))
        ++ ([⟨4, 2025, 60⟩, ⟨5, 2025, 20⟩] : List AllocInput).map
            (fun a => Alloc.mk 9 a.month a.year a.amount) ∧
      s2.sales = exC4w.sales ∧ s2.payments = exC4w.payments ∧
      (∀ a ∈ ([⟨4, 2025, 60⟩, ⟨5, 2025, 20⟩] : List AllocInput),
        findRow s2 a.year a.month
        = some ⟨a.year, a.month, (recalcOut s2 a.year a.month).sales,
            (recalcOut s2 a.year a.month).payments,
            (recalcOut s2 a.year a.month).is_paid⟩) ∧
      (∀ y m, (y, m) ∉ ([⟨4, 2025, 60⟩, ⟨5, 2025, 20⟩] : List AllocInput).map
            (fun a => (a.year, a.month)) →
        findRow s2 y m = findRow exC4w y m)) :=
  ⟨by decide, by decide, by norm_num [qsum],
    C4_distribute_recalcs_new_months exC4w ⟨9, ⟨2025, 5, 1⟩, 80, none, none⟩
      [⟨4, 2025, 60⟩, ⟨5, 2025, 20⟩] (by decide) (by decide)
      (by norm_num [qsum])⟩

/-- C10: calling `distribute_to_months` with an empty allocation list either
synthesizes exactly one full-amount allocation for the credit's direct
(month, year) target, or — when the credit has no direct target — returns
the empty list leaving the whole stored state (existing allocations
included) unchanged. -/
theorem C10_distribute_empty_list (s : State) (p : Payment) :
    ((p.forMonth = none ∨ p.forYear = none) →
      distributeToMonths s p [] = (.ok [], s)) ∧
    (∀ m y, p.forMonth = some m → p.forYear = some y → 1 ≤ m → m ≤ 12 →
      1 ≤ y →
      ∃ s2, distributeToMonths s p []
          = (.ok [⟨p.id, m, y, p.amount⟩], s2) ∧
        s2.allocs = (s.allocs.filter (fun a => a.payment != p.id))
          ++ [⟨p.id, m, y, p.amount⟩] ∧
        s2.sales = s.sales ∧ s2.payments = s.payments) := by
  constructor
  · intro h
    apply distribute_none
    rcases h with h | h <;> simp [distributeChosen, truthy, h]
  · intro m y hfm hfy hm1 hm2 hy
    have hm0 : m ≠ 0 := by omega
    have hy0 : y ≠ 0 := by omega
    have hch : distributeChosen p [] = some [⟨m, y, p.amount⟩] := by
      simp [distributeChosen, truthy, hfm, hfy, hm0, hy0]
    rw [distribute_some s p [] [⟨m, y, p.amount⟩] hch,
      if_neg (by simp [qsum])]
    obtain ⟨s2, hrec, hcore, hrows, hother⟩ :=
      recalcMonths_ok
        ((([⟨m, y, p.amount⟩] : List AllocInput).map
          (fun a => (a.year, a.month))).dedup)
        (State.mk s.sales s.payments
          ((s.allocs.filter (fun a => a.payment != p.id))
            ++ ([⟨m, y, p.amount⟩] : List AllocInput).map
              (fun a => Alloc.mk p.id a.month a.year a.amount)) s.balances)
        (by
          intro q hq
          obtain ⟨a, ha, haq⟩ := List.mem_map.mp (List.mem_dedup.mp hq)
          rcases List.mem_singleton.mp ha with rfl
          rw [← haq]
          exact ⟨hy, hm1, hm2⟩)
    rw [hrec]
    exact ⟨s2, rfl, hcore.2.2, hcore.1, hcore.2.1⟩

/-- Ledger used by the witness of C10 (no-target branch): credit 5 has an
existing allocation and no direct target. -/
def exC10a : State :=
  ⟨[⟨⟨2025, 6, 3⟩, 1, 45⟩], [⟨5, ⟨2025, 7, 1⟩, 45, none, some 2025⟩],
    [⟨5, 6, 2025, 45⟩], [⟨2025, 6, 45, 45, true⟩]⟩

/-- Ledger used by the witness of C10 (direct-target branch). -/
def exC10b : State :=
  ⟨[⟨⟨2025, 6, 3⟩, 1, 45⟩], [⟨6, ⟨2025, 7, 1⟩, 30, some 6, some 2025⟩],
    [], []⟩

theorem C10_distribute_empty_list_witness :
    distributeToMonths exC10a ⟨5, ⟨2025, 7, 1⟩, 45, none, some 2025⟩ []
        = (.ok [], exC10a) ∧
    (∃ s2, distributeToMonths exC10b ⟨6, ⟨2025, 7, 1⟩, 30, some 6, some 2025⟩ []
        = (.ok [⟨6, 6, 2025, 30⟩], s2) ∧
      s2.allocs = (exC10b.allocs.filter (fun a => a.payment != 6))
        ++ [⟨6, 6, 2025, 30⟩] ∧
      s2.sales = exC10b.sales ∧ s2.payments = exC10b.payments) :=
  ⟨(C10_distribute_empty_list exC10a ⟨5, ⟨2025, 7, 1⟩, 45, none, some 2025⟩).1
      (Or.inl rfl),
    (C10_distribute_empty_list exC10b
        ⟨6, ⟨2025, 7, 1⟩, 30, some 6, some 2025⟩).2 6 2025 rfl rfl
      (by norm_num) (by norm_num) (by norm_num)⟩

/-- `update_monthly_balances(customer, year, month=0)`: month 0 is falsy in
Python, so `if year and month:` falls through to the full-sweep branch —
identical to calling with no month at all, with no error raised. -/
theorem updateMB_month0 (s : State) (y : Option Nat) :
    updateMonthlyBalances s y (some 0) = updateMonthlyBalances s none none := by
  unfold updateMonthlyBalances
  rw [if_neg (by simp [truthy]), if_neg (by simp [truthy])]

/-- The sweep branch of `update_monthly_balances` always succeeds (every
swept month is in 1..12 by construction) and only writes balance rows. -/
theorem updateMB_none_ok (s : State) :
    ∃ out s2, updateMonthlyBalances s none none = (.ok out, s2) ∧
      sameCore s s2 := by
  cases hmin : minSaleDate s.sales with
  | none =>
    unfold updateMonthlyBalances
    rw [if_neg (by simp [truthy]), hmin]
    cases maxSaleDate s.sales with
    | none => exact ⟨.many [], s, rfl, sameCore_refl s⟩
    | some d => exact ⟨.many [], s, rfl, sameCore_refl s⟩
  | some dmin =>
    cases hmax : maxSaleDate s.sales with
    | none =>
      exfalso
      have hne : s.sales ≠ [] := by
        intro hnil
        rw [hnil] at hmin
        simp [minSaleDate] at hmin
      obtain ⟨x, l, hxl⟩ := List.exists_cons_of_ne_nil hne
      rw [hxl] at hmax
      simp [maxSaleDate] at hmax
    | some dmax =>
      obtain ⟨s2, heq, hcore, _⟩ := updateMB_sweep s dmin dmax hmin hmax
      exact ⟨_, s2, heq, hcore⟩

/-- The recalculation loop succeeds over any month list whose entries have a
positive year and a month that is either 0 (falsy: the call silently sweeps)
or in range 1..12 (specific recalculation). -/
theorem recalcMonths_ok_any (L : List (Nat × Nat)) (s : State)
    (hL : ∀ q ∈ L, 1 ≤ q.1 ∧ (q.2 = 0 ∨ (1 ≤ q.2 ∧ q.2 ≤ 12))) :
    ∃ s2, recalcMonths s L = (.ok (), s2) ∧ sameCore s s2 := by
  induction L generalizing s with
  | nil => exact ⟨s, rfl, sameCore_refl s⟩
  | cons q rest ih =>
    obtain ⟨y0, m0⟩ := q
    obtain ⟨hy0, hm0⟩ := hL (y0, m0) (List.mem_cons_self (y0, m0) rest)
    rcases hm0 with hz | ⟨hm1, hm2⟩
    · subst hz
      obtain ⟨out, s1, hok, hcore1⟩ := updateMB_none_ok s
      obtain ⟨s2, hrec2, hcore2⟩ := ih s1
        (fun q hq => by
          obtain ⟨h1, h2⟩ := hL q (List.mem_cons_of_mem (y0, 0) hq)
          obtain ⟨hs1, hp1, ha1⟩ := hcore1
          exact ⟨h1, h2⟩)
      unfold recalcMonths
      rw [updateMB_month0 s (some y0), hok]
      exact ⟨s2, hrec2, sameCore_trans hcore1 hcore2⟩
    · have hupd := updateMB_specific s y0 m0 hy0 hm1 hm2
      have hcore1 : sameCore s
          (setRow (getOrCreate s y0 m0) y0 m0 (recalcOut s y0 m0)) :=
        sameCore_trans (sameCore_getOrCreate s y0 m0)
          (sameCore_setRow _ y0 m0 _)
      obtain ⟨s2, hrec2, hcore2⟩ :=
        ih (setRow (getOrCreate s y0 m0) y0 m0 (recalcOut s y0 m0))
          (fun q hq => hL q (List.mem_cons_of_mem (y0, m0) hq))
      unfold recalcMonths
      rw [hupd]
      exact ⟨s2, hrec2, sameCore_trans hcore1 hcore2⟩

/-- When the month list contains an out-of-range month (every listed month
truthy and every year positive), the recalculation loop raises the
`datetime.date` error. -/
theorem recalcMonths_error (L : List (Nat × Nat)) (s : State)
    (hv : ∀ q ∈ L, 1 ≤ q.1 ∧ 1 ≤ q.2)
    (hbad : ∃ q ∈ L, 13 ≤ q.2) :
    ∃ s1, recalcMonths s L
      = (.error "ValueError: month must be in 1..12", s1) := by
  induction L generalizing s with
  | nil =>
    obtain ⟨q, hq, _⟩ := hbad
    exact absurd hq (List.not_mem_nil q)
  | cons q rest ih =>
    obtain ⟨y0, m0⟩ := q
    obtain ⟨hy0, hm0⟩ := hv (y0, m0) (List.mem_cons_self (y0, m0) rest)
    by_cases h12 : m0 ≤ 12
    · have hupd := updateMB_specific s y0 m0 hy0 hm0 h12
      unfold recalcMonths
      rw [hupd]
      apply ih
      · exact fun q hq => hv q (List.mem_cons_of_mem (y0, m0) hq)
      · obtain ⟨q2, hq2, hbad2⟩ := hbad
        rcases List.mem_cons.mp hq2 with h | h
        · exfalso
          rw [h] at hbad2
          omega
        · exact ⟨q2, h, hbad2⟩
    · have hupd := updateMB_specific_error s y0 m0 hy0 (by omega)
      unfold recalcMonths
      rw [hupd]
      exact ⟨getOrCreate s y0 m0, rfl⟩

/-- C8 (amended): out-of-range months are never validated before a write,
and the two falsy/truthy regimes behave differently.
For a month ≥ 13 (truthy): recalculating raises the `datetime.date` error,
but only after `get_or_create` has already committed a default
MonthlyBalance row for the invalid month; distributing a credit to such a
month raises the same error inside the transaction, whose rollback leaves
the stored state unchanged.
For month 0 (falsy in Python): no error is raised at all — recalculating
"specific month 0" silently performs the full sweep instead, and
distributing a credit with a month-0 allocation succeeds and commits the
month-0 allocation (it then counts toward no monthly balance). -/
theorem C8_invalid_month (s : State) (p : Payment) :
    (∀ y m, 1 ≤ y → 13 ≤ m →
      updateMonthlyBalances s (some y) (some m)
        = (.error "ValueError: month must be in 1..12", getOrCreate s y m)) ∧
    (∀ y, updateMonthlyBalances s (some y) (some 0)
        = updateMonthlyBalances s none none) ∧
    (∀ inputs : List AllocInput, inputs ≠ [] →
      qsum inputs (fun a => a.amount) ≤ p.amount →
      (∀ a ∈ inputs, 1 ≤ a.month ∧ 1 ≤ a.year) →
      (∃ a ∈ inputs, 13 ≤ a.month) →
      distributeToMonths s p inputs
        = (.error "ValueError: month must be in 1..12", s)) ∧
    (∀ inputs : List AllocInput, inputs ≠ [] →
      qsum inputs (fun a => a.amount) ≤ p.amount →
      (∀ a ∈ inputs, 1 ≤ a.year ∧
        (a.month = 0 ∨ (1 ≤ a.month ∧ a.month ≤ 12))) →
      ∃ s2, distributeToMonths s p inputs
          = (.ok (inputs.map (fun a => Alloc.mk p.id a.month a.year a.amount)),
              s2) ∧
        s2.allocs = (s.allocs.filter (fun a => a.payment != p.id))
          ++ inputs.map (fun a => Alloc.mk p.id a.month a.year a.amount)) := by
  refine ⟨fun y m hy hm => updateMB_specific_error s y m hy hm,
    fun y => updateMB_month0 s (some y), ?_, ?_⟩
  · intro inputs hne hsum hv hbad
    rw [distribute_some s p inputs inputs
      (distributeChosen_nonempty p inputs hne), if_neg (not_lt.mpr hsum)]
    obtain ⟨s1, herr⟩ := recalcMonths_error
      ((inputs.map (fun a => (a.year, a.month))).dedup)
      (State.mk s.sales s.payments
        ((s.allocs.filter (fun a => a.payment != p.id))
          ++ inputs.map (fun a => Alloc.mk p.id a.month a.year a.amount))
        s.balances)
      (by
        intro q hq
        obtain ⟨a, ha, haq⟩ := List.mem_map.mp (List.mem_dedup.mp hq)
        obtain ⟨h1, h2⟩ := hv a ha
        rw [← haq]
        exact ⟨h2, h1⟩)
      (by
        obtain ⟨a, ha, hm13⟩ := hbad
        exact ⟨(a.year, a.month), List.mem_dedup.mpr (List.mem_map.mpr
          ⟨a, ha, rfl⟩), hm13⟩)
    rw [herr]
  · intro inputs hne hsum hv
    rw [distribute_some s p inputs inputs
      (distributeChosen_nonempty p inputs hne), if_neg (not_lt.mpr hsum)]
    obtain ⟨s2, hrec, hcore⟩ := recalcMonths_ok_any
      ((inputs.map (fun a => (a.year, a.month))).dedup)
      (State.mk s.sales s.payments
        ((s.allocs.filter (fun a => a.payment != p.id))
          ++ inputs.map (fun a => Alloc.mk p.id a.month a.year a.amount))
        s.balances)
      (by
        intro q hq
        obtain ⟨a, ha, haq⟩ := List.mem_map.mp (List.mem_dedup.mp hq)
        obtain ⟨h1, h2⟩ := hv a ha
        rw [← haq]
        exact ⟨h1, h2⟩)
    rw [hrec]
    exact ⟨s2, rfl, hcore.2.2⟩

/-- C8 counterexample on an empty ledger: recalculating month 13 of 2025
raises the error only AFTER creating the default MonthlyBalance row for the
invalid month — a write does happen, contradicting "raised before any
write, so no MonthlyBalance row is created"; and recalculating month 0 —
also outside 1–12 — raises no error at all (Python truthiness sends it to
the sweep branch), contradicting "a ValidationError is raised". -/
theorem C8_invalid_month_counterexample :
    (updateMonthlyBalances (State.mk [] [] [] []) (some 2025) (some 13)).1
        = .error "ValueError: month must be in 1..12" ∧
    (State.mk [] [] [] []).balances = [] ∧
    (updateMonthlyBalances (State.mk [] [] [] [])
        (some 2025) (some 13)).2.balances
        = [⟨2025, 13, 0, 0, false⟩] ∧
    (updateMonthlyBalances (State.mk [] [] [] []) (some 2025) (some 0)).1
        = .ok (.many []) := by
  have h := updateMB_specific_error (State.mk [] [] [] []) 2025 13
    (by norm_num) (by norm_num)
  refine ⟨by rw [h], rfl, by
    rw [h]
    rfl, ?_⟩
  rw [updateMB_month0 (State.mk [] [] [] []) (some 2025)]
  rfl

/-- Ledger used by the witness of C8. -/
def exC8 : State :=
  ⟨[⟨⟨2025, 1, 10⟩, 1, 40⟩], [⟨1, ⟨2025, 1, 20⟩, 40, none, none⟩],
    [⟨1, 1, 2025, 40⟩], [⟨2025, 1, 40, 40, true⟩]⟩

theorem C8_invalid_month_witness :
    (updateMonthlyBalances exC8 (some 2025) (some 13)
        = (.error "ValueError: month must be in 1..12",
            getOrCreate exC8 2025 13)) ∧
    (updateMonthlyBalances exC8 (some 2025) (some 0)
        = updateMonthlyBalances exC8 none none) ∧
    (distributeToMonths exC8 ⟨1, ⟨2025, 1, 20⟩, 40, none, none⟩
          [⟨13, 2025, 40⟩]
        = (.error "ValueError: month must be in 1..12", exC8)) ∧
    (∃ s2, distributeToMonths exC8 ⟨1, ⟨2025, 1, 20⟩, 40, none, none⟩
          [⟨0, 2025, 40⟩]
        = (.ok [⟨1, 0, 2025, 40⟩], s2) ∧
      s2.allocs = (exC8.allocs.filter (fun a => a.payment != 1))
        ++ [⟨1, 0, 2025, 40⟩]) :=
  ⟨(C8_invalid_month exC8 ⟨1, ⟨2025, 1, 20⟩, 40, none, none⟩).1 2025 13
      (by norm_num) (by norm_num),
    (C8_invalid_month exC8 ⟨1, ⟨2025, 1, 20⟩, 40, none, none⟩).2.1 2025,
    (C8_invalid_month exC8 ⟨1, ⟨2025, 1, 20⟩, 40, none, none⟩).2.2.1
      [⟨13, 2025, 40⟩] (by decide) (by norm_num [qsum]) (by decide)
      (by decide),
    (C8_invalid_month exC8 ⟨1, ⟨2025, 1, 20⟩, 40, none, none⟩).2.2.2
      [⟨0, 2025, 40⟩] (by decide) (by norm_num [qsum]) (by decide)⟩

/-- C5: `update_monthly_balances(customer)` (the sweep) returns empty when
the customer has no Charges; otherwise it produces exactly one result per
calendar month from the month of the earliest Charge through the month of
the latest Charge — consecutive month indices, chronological, no gaps,
valid months across year boundaries — each result being the recalculate
output for that month. -/
theorem C5_sweep_complete (s : State)
    (hd : ∀ x ∈ s.sales, ValidDate x.date) :
    (s.sales = [] → updateMonthlyBalances s none none = (.ok (.many []), s)) ∧
    (∀ dmin dmax, minSaleDate s.sales = some dmin →
      maxSaleDate s.sales = some dmax →
      ∃ items s2,
        updateMonthlyBalances s none none = (.ok (.many items), s2) ∧
        (dmin ∈ s.sales.map (fun v => v.date) ∧
          ∀ v ∈ s.sales, dateLeB dmin v.date = true) ∧
        (dmax ∈ s.sales.map (fun v => v.date) ∧
          ∀ v ∈ s.sales, dateLeB v.date dmax = true) ∧
        monthIdx dmin.year dmin.month ≤ monthIdx dmax.year dmax.month ∧
        items.map (fun it => monthIdx it.year it.month)
          = List.range' (monthIdx dmin.year dmin.month)
              (monthIdx dmax.year dmax.month + 1
                - monthIdx dmin.year dmin.month) ∧
        (∀ it ∈ items, 1 ≤ it.month ∧ it.month ≤ 12 ∧
          it.res = recalcOut s it.year it.month)) := by
  constructor
  · intro h
    unfold updateMonthlyBalances
    rw [if_neg (by simp [truthy]), h]
    rfl
  · intro dmin dmax hmin hmax
    obtain ⟨s2, heq, hcore, hinv⟩ := updateMB_sweep s dmin dmax hmin hmax
    obtain ⟨x, l, hxl⟩ : ∃ x l, s.sales = x :: l := by
      cases hs : s.sales with
      | nil =>
        rw [hs] at hmin
        simp [minSaleDate] at hmin
      | cons x l => exact ⟨x, l, rfl⟩
    have hdmin : dmin = (l.map (fun v => v.date)).foldl dateMin x.date := by
      rw [hxl] at hmin
      exact (Option.some.inj hmin).symm
    have hdmax : dmax = (l.map (fun v => v.date)).foldl dateMax x.date := by
      rw [hxl] at hmax
      exact (Option.some.inj hmax).symm
    have hminmem : dmin ∈ s.sales.map (fun v => v.date) := by
      rw [hxl, hdmin]
      simpa [List.map_cons] using
        foldl_dateMin_mem (l.map (fun v => v.date)) x.date
    have hmaxmem : dmax ∈ s.sales.map (fun v => v.date) := by
      rw [hxl, hdmax]
      simpa [List.map_cons] using
        foldl_dateMax_mem (l.map (fun v => v.date)) x.date
    have hminle : ∀ v ∈ s.sales, dateLeB dmin v.date = true := by
      intro v hv
      rw [hxl] at hv
      obtain ⟨h1, h2⟩ := foldl_dateMin_le (l.map (fun w => w.date)) x.date
      rcases List.mem_cons.mp hv with h | h
      · rw [← hdmin] at h1
        rw [h]
        exact h1
      · have := h2 v.date (List.mem_map.mpr ⟨v, h, rfl⟩)
        rw [← hdmin] at this
        exact this
    have hmaxge : ∀ v ∈ s.sales, dateLeB v.date dmax = true := by
      intro v hv
      rw [hxl] at hv
      obtain ⟨h1, h2⟩ := foldl_dateMax_ge (l.map (fun w => w.date)) x.date
      rcases List.mem_cons.mp hv with h | h
      · rw [← hdmax] at h1
        rw [h]
        exact h1
      · have := h2 v.date (List.mem_map.mpr ⟨v, h, rfl⟩)
        rw [← hdmax] at this
        exact this
    have hvmin : ValidDate dmin := by
      obtain ⟨v, hv, hveq⟩ := List.mem_map.mp hminmem
      rw [← hveq]
      exact hd v hv
    have hvmax : ValidDate dmax := by
      obtain ⟨v, hv, hveq⟩ := List.mem_map.mp hmaxmem
      rw [← hveq]
      exact hd v hv
    have hle : dateLeB dmin dmax = true := by
      obtain ⟨v, hv, hveq⟩ := List.mem_map.mp hmaxmem
      rw [← hveq]
      exact hminle v hv
    have hidx : monthIdx dmin.year dmin.month ≤ monthIdx dmax.year dmax.month :=
      monthIdx_mono hvmin.1 hvmin.2.1 hvmax.1 hvmax.2.1 hle
    refine ⟨_, s2, heq, ⟨hminmem, hminle⟩, ⟨hmaxmem, hmaxge⟩, hidx, ?_, ?_⟩
    · rw [List.map_map]
      exact monthRange_idx _ _
    intro it hit
    obtain ⟨q, hq, hqit⟩ := List.mem_map.mp hit
    obtain ⟨hq1, hq2⟩ := monthRange_valid _ _ q hq
    rw [← hqit]
    exact ⟨hq1, hq2, rfl⟩

/-- Ledger used by the witness of C5: charges in December 2024 and February
2025 — the sweep must cover the three months across the year boundary. -/
def exC5 : State :=
  ⟨[⟨⟨2025, 2, 10⟩, 1, 55⟩, ⟨⟨2024, 12, 20⟩, 2, 25⟩], [], [], []⟩

theorem C5_sweep_complete_witness :
    (∀ x ∈ exC5.sales, ValidDate x.date) ∧
    (∃ items s2,
      updateMonthlyBalances exC5 none none = (.ok (.many items), s2) ∧
      ((⟨2024, 12, 20⟩ : Date) ∈ exC5.sales.map (fun v => v.date) ∧
        ∀ v ∈ exC5.sales, dateLeB ⟨2024, 12, 20⟩ v.date = true) ∧
      ((⟨2025, 2, 10⟩ : Date) ∈ exC5.sales.map (fun v => v.date) ∧
        ∀ v ∈ exC5.sales, dateLeB v.date ⟨2025, 2, 10⟩ = true) ∧
      monthIdx 2024 12 ≤ monthIdx 2025 2 ∧
      items.map (fun it => monthIdx it.year it.month)
        = List.range' (monthIdx 2024 12) (monthIdx 2025 2 + 1 - monthIdx 2024 12) ∧
      (∀ it ∈ items, 1 ≤ it.month ∧ it.month ≤ 12 ∧
        it.res = recalcOut exC5 it.year it.month)) :=
  ⟨by decide,
    (C5_sweep_complete exC5 (by decide)).2 ⟨2024, 12, 20⟩ ⟨2025, 2, 10⟩
      rfl rfl⟩

instance : IsTotal BalanceRow ymRowLe :=
  ⟨fun a b => by
    unfold ymRowLe
    omega⟩

instance : IsTrans BalanceRow ymRowLe :=
  ⟨fun a b c h1 h2 => by
    unfold ymRowLe at h1 h2 ⊢
    omega⟩

/-- C6: every entry returned by `get_pending_months` comes from a row with
positive sales and `is_paid = false`; its balance equals
sales − payments and is strictly positive, and the entries are ordered
ascending by (year, month). -/
theorem C6_pending_months (s : State) (hinv : RowsInv s) :
    (∀ e ∈ (getPendingMonths s).1,
      0 < e.sales ∧ e.balance = e.sales - e.payments ∧ 0 < e.balance) ∧
    (getPendingMonths s).1.Pairwise
      (fun a b => a.year < b.year ∨ (a.year = b.year ∧ a.month ≤ b.month)) := by
  obtain ⟨hcore, hinv2⟩ := updateMB_none_state s hinv
  unfold getPendingMonths
  simp only
  constructor
  · intro e he
    obtain ⟨b, hb, hbe⟩ := List.mem_map.mp he
    have hbfil : b ∈ (updateMonthlyBalances s none none).2.balances.filter
        (fun v => !v.is_paid && decide (0 < v.sales_amount)) :=
      (List.perm_insertionSort ymRowLe _).mem_iff.mp hb
    have hbmem : b ∈ (updateMonthlyBalances s none none).2.balances :=
      List.mem_of_mem_filter hbfil
    have hfb := List.of_mem_filter hbfil
    simp only [Bool.and_eq_true, Bool.not_eq_true', decide_eq_true_eq] at hfb
    obtain ⟨hpaid, hpos⟩ := hfb
    have hbinv := hinv2 b hbmem
    rw [hpaid] at hbinv
    have hlt : b.payment_amount < b.sales_amount := by
      by_contra hc
      push_neg at hc
      rw [decide_eq_true hc] at hbinv
      exact Bool.noConfusion hbinv
    rw [← hbe]
    exact ⟨hpos, rfl, sub_pos.mpr hlt⟩
  · have hsorted := List.sorted_insertionSort ymRowLe
      ((updateMonthlyBalances s none none).2.balances.filter
        (fun v => !v.is_paid && decide (0 < v.sales_amount)))
    rw [List.pairwise_map]
    exact hsorted.imp (fun h => h)

/-- Ledger used by the witness of C6: January 2025 paid directly, February
2025 unpaid. -/
def exC6 : State :=
  ⟨[⟨⟨2025, 1, 10⟩, 10, 50⟩, ⟨⟨2025, 2, 10⟩, 10, 50⟩],
    [⟨2, ⟨2025, 3, 1⟩, 500, some 1, some 2025⟩], [], []⟩

theorem C6_pending_months_witness :
    RowsInv exC6 ∧
    ((∀ e ∈ (getPendingMonths exC6).1,
      0 < e.sales ∧ e.balance = e.sales - e.payments ∧ 0 < e.balance) ∧
    (getPendingMonths exC6).1.Pairwise
      (fun a b => a.year < b.year ∨ (a.year = b.year ∧ a.month ≤ b.month))) :=
  ⟨fun b hb => absurd hb (List.not_mem_nil b),
    C6_pending_months exC6 (fun b hb => absurd hb (List.not_mem_nil b))⟩

/-! ## Lemmas about the view allocation loop -/

theorem allocateLoop_sum_le (rows : List BalanceRow)
    (sel : List (Nat × Nat)) :
    ∀ r : ℚ, 0 ≤ r →
      qsum (allocateLoop r rows sel).1 (fun a => a.amount) ≤ r := by
  induction rows with
  | nil =>
    intro r hr
    simpa [allocateLoop, qsum] using hr
  | cons b rest ih =>
    intro r hr
    unfold allocateLoop
    by_cases hmem : (b.month, b.year) ∈ sel
    · rw [if_neg (by simp [hmem])]
      by_cases hz : min (b.sales_amount - b.payment_amount) r ≤ 0
      · rw [if_pos hz]
        exact ih r hr
      · rw [if_neg hz]
        by_cases hex : r - min (b.sales_amount - b.payment_amount) r ≤ 0
        · rw [if_pos hex]
          simp only [qsum, List.map_cons, List.map_nil, List.sum_cons,
            List.sum_nil, add_zero]
          exact min_le_right _ r
        · rw [if_neg hex]
          push_neg at hex
          have hrec := ih (r - min (b.sales_amount - b.payment_amount) r)
            (le_of_lt hex)
          simp only [qsum, List.map_cons, List.sum_cons]
          simp only [qsum] at hrec
          linarith
    · rw [if_pos (by simp [hmem])]
      exact ih r hr

theorem allocateLoop_entries (rows : List BalanceRow)
    (sel : List (Nat × Nat)) :
    ∀ r : ℚ, ∀ a ∈ (allocateLoop r rows sel).1,
      0 < a.amount ∧ (a.month, a.year) ∈ sel := by
  induction rows with
  | nil =>
    intro r a ha
    simp [allocateLoop] at ha
  | cons b rest ih =>
    intro r a ha
    unfold allocateLoop at ha
    by_cases hmem : (b.month, b.year) ∈ sel
    · rw [if_neg (by simp [hmem])] at ha
      by_cases hz : min (b.sales_amount - b.payment_amount) r ≤ 0
      · rw [if_pos hz] at ha
        exact ih r a ha
      · rw [if_neg hz] at ha
        push_neg at hz
        by_cases hex : r - min (b.sales_amount - b.payment_amount) r ≤ 0
        · rw [if_pos hex] at ha
          rcases List.mem_singleton.mp ha with rfl
          exact ⟨hz, hmem⟩
        · rw [if_neg hex] at ha
          rcases List.mem_cons.mp ha with h | h
          · rw [h]
            exact ⟨hz, hmem⟩
          · exact ih _ a h
    · rw [if_pos (by simp [hmem])] at ha
      exact ih r a ha

theorem allocateLoop_months_sublist (rows : List BalanceRow)
    (sel : List (Nat × Nat)) :
    ∀ r : ℚ, List.Sublist
      ((allocateLoop r rows sel).1.map (fun a => (a.year, a.month)))
      (rows.map (fun b => (b.year, b.month))) := by
  induction rows with
  | nil =>
    intro r
    simp [allocateLoop]
  | cons b rest ih =>
    intro r
    unfold allocateLoop
    by_cases hmem : (b.month, b.year) ∈ sel
    · rw [if_neg (by simp [hmem])]
      by_cases hz : min (b.sales_amount - b.payment_amount) r ≤ 0
      · rw [if_pos hz]
        exact (ih r).trans (List.sublist_cons_self _ _)
      · rw [if_neg hz]
        by_cases hex : r - min (b.sales_amount - b.payment_amount) r ≤ 0
        · rw [if_pos hex]
          simp only [List.map_cons, List.map_nil]
          exact (List.nil_sublist _).cons₂ _
        · rw [if_neg hex]
          simp only [List.map_cons]
          exact (ih _).cons₂ _
    · rw [if_pos (by simp [hmem])]
      exact (ih r).trans (List.sublist_cons_self _ _)

/-- C9: the multi-month allocation loop of `payment_create_view` walks the
unpaid rows oldest-first: every created allocation is strictly positive,
targets a selected month, the allocation months appear in ascending
(year, month) order, and the total allocated never exceeds the payment
amount. -/
theorem C9_payment_create_allocation (s : State) (amount : ℚ)
    (sel : List (Nat × Nat)) (h : 0 ≤ amount) :
    qsum (paymentCreateAllocs s amount sel) (fun a => a.amount) ≤ amount ∧
    (∀ a ∈ paymentCreateAllocs s amount sel,
      0 < a.amount ∧ (a.month, a.year) ∈ sel) ∧
    ((paymentCreateAllocs s amount sel).map
        (fun a => (a.year, a.month))).Pairwise
      (fun q1 q2 => q1.1 < q2.1 ∨ (q1.1 = q2.1 ∧ q1.2 ≤ q2.2)) := by
  refine ⟨allocateLoop_sum_le (viewUnpaidRows s) sel amount h,
    allocateLoop_entries (viewUnpaidRows s) sel amount, ?_⟩
  have hsorted := List.sorted_insertionSort ymRowLe
    (s.balances.filter (fun b => !b.is_paid && decide (0 < b.sales_amount)))
  have hpair : ((viewUnpaidRows s).map (fun b => (b.year, b.month))).Pairwise
      (fun q1 q2 => q1.1 < q2.1 ∨ (q1.1 = q2.1 ∧ q1.2 ≤ q2.2)) := by
    rw [List.pairwise_map]
    exact hsorted.imp (fun h => h)
  exact hpair.sublist (allocateLoop_months_sublist (viewUnpaidRows s) sel amount)

/-- Ledger used by the witness of C9: three unpaid months, of which January
and February 2025 are selected; the payment is 600. -/
def exC9 : State :=
  ⟨[], [], [],
    [⟨2025, 2, 500, 0, false⟩, ⟨2025, 1, 500, 0, false⟩,
      ⟨2025, 3, 200, 0, false⟩]⟩

theorem C9_payment_create_allocation_witness :
    (0 ≤ (600 : ℚ)) ∧
    (qsum (paymentCreateAllocs exC9 600 [(1, 2025), (2, 2025)])
        (fun a => a.amount) ≤ 600 ∧
    (∀ a ∈ paymentCreateAllocs exC9 600 [(1, 2025), (2, 2025)],
      0 < a.amount ∧ (a.month, a.year) ∈ [(1, 2025), (2, 2025)]) ∧
    ((paymentCreateAllocs exC9 600 [(1, 2025), (2, 2025)]).map
        (fun a => (a.year, a.month))).Pairwise
      (fun q1 q2 => q1.1 < q2.1 ∨ (q1.1 = q2.1 ∧ q1.2 ≤ q2.2))) :=
  ⟨by norm_num,
    C9_payment_create_allocation exC9 600 [(1, 2025), (2, 2025)]
      (by norm_num)⟩

/-! ## Lemmas for the live-vs-materialized balance comparison -/

theorem allocatedPayments_nil {s : State} (h : s.allocs = []) (y m : Nat) :
    allocatedPayments s y m = 0 := by
  unfold allocatedPayments
  rw [h]
  rfl

theorem earliestDataIdx_le_self (s : State) (t : Nat) :
    earliestDataIdx s t ≤ t :=
  foldl_min_le_init _ t

theorem earliestDataIdx_le_sale (s : State) (t : Nat) (x : Sale)
    (hx : x ∈ s.sales) :
    earliestDataIdx s t ≤ monthIdx x.date.year x.date.month := by
  apply foldl_min_le_mem
  exact List.mem_append_left _ (List.mem_append_left _
    (List.mem_map.mpr ⟨x, hx, rfl⟩))

theorem earliestDataIdx_le_target (s : State) (t : Nat) (p : Payment)
    (hp : p ∈ s.payments) (mm yy : Nat) (hmm : p.forMonth = some mm)
    (hyy : p.forYear = some yy) :
    earliestDataIdx s t ≤ monthIdx yy mm := by
  apply foldl_min_le_mem
  exact List.mem_append_left _ (List.mem_append_right _
    (List.mem_filterMap.mpr ⟨p, hp, by rw [hyy, hmm]⟩))

/-- Summing the per-month sales of consecutive months collapses to one
filtered sum over the sales whose month index falls below the bound. -/
theorem sum_months_sales (s : State) (a n : Nat)
    (hd : ∀ x ∈ s.sales, ValidDate x.date)
    (hbound : ∀ x ∈ s.sales, a ≤ monthIdx x.date.year x.date.month) :
    ((List.range' a n).map (fun i =>
        monthSales s (idxYear i) (idxMonth i))).sum
      = qsum (s.sales.filter (fun x =>
          decide (monthIdx x.date.year x.date.month < a + n)))
        (fun x => x.quantity * x.rate) := by
  have := sum_buckets s.sales (fun x => x.quantity * x.rate)
    (fun x => monthIdx x.date.year x.date.month)
    (fun i x => dateLeB (monthStart (idxYear i) (idxMonth i)) x.date &&
      dateLeB x.date (monthEnd (idxYear i) (idxMonth i))) a n
    (by
      intro x hx i _ _
      dsimp only
      have hv := hd x hx
      have hb := idxMonth_bounds i
      rw [inMonth_iff (idxYear i) (idxMonth i) x.date hb.1 hb.2 hv]
      constructor
      · rintro ⟨hy, hm⟩
        rw [hy, hm, monthIdx_idx]
      · intro hi
        rw [hi]
        obtain ⟨h1, h2⟩ := idxYM_monthIdx x.date.year x.date.month hv.1 hv.2.1
        exact ⟨h1.symm, h2.symm⟩)
    hbound
  exact this

/-- Summing the per-month direct payments of consecutive months collapses to
one filtered sum over the payments whose target index falls below the
bound (every payment carrying a valid direct target). -/
theorem sum_months_direct (s : State) (a n : Nat)
    (hp : ∀ p ∈ s.payments, ∃ mm yy, p.forMonth = some mm ∧
      p.forYear = some yy ∧ 1 ≤ mm ∧ mm ≤ 12)
    (hbound : ∀ p ∈ s.payments,
      a ≤ monthIdx (p.forYear.getD 0) (p.forMonth.getD 0)) :
    ((List.range' a n).map (fun i =>
        directPayments s (idxYear i) (idxMonth i))).sum
      = qsum (s.payments.filter (fun p =>
          decide (monthIdx (p.forYear.getD 0) (p.forMonth.getD 0) < a + n)))
        (fun p => p.amount) := by
  have := sum_buckets s.payments (fun p => p.amount)
    (fun p => monthIdx (p.forYear.getD 0) (p.forMonth.getD 0))
    (fun i p => p.forMonth == some (idxMonth i) &&
      p.forYear == some (idxYear i)) a n
    (by
      intro p hpm i _ _
      dsimp only
      obtain ⟨mm, yy, hmm, hyy, hb1, hb2⟩ := hp p hpm
      rw [hmm, hyy]
      simp only [Option.getD_some, Bool.and_eq_true, beq_iff_eq,
        Option.some.injEq]
      constructor
      · rintro ⟨h1, h2⟩
        rw [h1, h2, monthIdx_idx]
      · intro hi
        rw [hi]
        obtain ⟨h1, h2⟩ := idxYM_monthIdx yy mm hb1 hb2
        exact ⟨h2.symm, h1.symm⟩)
    hbound
  exact this

/-- C7 (amended): the live `get_month_balance` total agrees with the sum of
the recalculated per-month balances up to (year, month) PROVIDED the
customer has no PaymentAllocations and every Credit carries a valid direct
(month, year) target. In general the two paths diverge: the live path never
reads allocations and it also counts untargeted credits dated before the
month start, which the materialized path never counts (see the
counterexample). -/
theorem C7_balance_agreement_amended (s : State) (y m : Nat)
    (hm1 : 1 ≤ m) (hm2 : m ≤ 12)
    (hd : ∀ x ∈ s.sales, ValidDate x.date)
    (ha : s.allocs = [])
    (hp : ∀ p ∈ s.payments, ∃ mm yy, p.forMonth = some mm ∧
      p.forYear = some yy ∧ 1 ≤ mm ∧ mm ≤ 12) :
    (getMonthBalance s y m).total_balance = specMaterializedTotal s y m := by
  have haT := earliestDataIdx_le_self s (monthIdx y m)
  have han : earliestDataIdx s (monthIdx y m)
      + (monthIdx y m + 1 - earliestDataIdx s (monthIdx y m))
      = monthIdx y m + 1 := by omega
  have hL : (getMonthBalance s y m).total_balance
      = (qsum (s.sales.filter (fun x => dateLtB x.date (monthStart y m)))
            (fun x => x.quantity * x.rate)
          - (qsum (s.payments.filter (fun p =>
                dateLtB p.date (monthStart y m) && p.forMonth == none &&
                  p.forYear == none)) (fun p => p.amount)
            + qsum (s.payments.filter (fun p =>
                match p.forYear with | some z => z < y | none => false))
                (fun p => p.amount)
            + qsum (s.payments.filter (fun p => p.forYear == some y &&
                (match p.forMonth with | some w => w < m | none => false)))
                (fun p => p.amount)))
        + (qsum (s.sales.filter (fun x =>
              dateLeB (monthStart y m) x.date &&
                dateLeB x.date (monthEnd y m)))
              (fun x => x.quantity * x.rate)
          - qsum (s.payments.filter (fun p =>
              p.forMonth == some m && p.forYear == some y))
              (fun p => p.amount)) := rfl
  have hU : qsum (s.payments.filter (fun p =>
      dateLtB p.date (monthStart y m) && p.forMonth == none &&
        p.forYear == none)) (fun p => p.amount) = 0 := by
    have hnil : s.payments.filter (fun p =>
        dateLtB p.date (monthStart y m) && p.forMonth == none &&
          p.forYear == none) = [] := by
      rw [List.filter_eq_nil_iff]
      intro p hpm
      obtain ⟨mm, yy, hmm, hyy, _, _⟩ := hp p hpm
      simp [hmm, hyy]
    rw [hnil]
    rfl
  have hSales : qsum (s.sales.filter (fun x =>
        dateLtB x.date (monthStart y m))) (fun x => x.quantity * x.rate)
      + qsum (s.sales.filter (fun x =>
          dateLeB (monthStart y m) x.date && dateLeB x.date (monthEnd y m)))
          (fun x => x.quantity * x.rate)
      = qsum (s.sales.filter (fun x =>
          decide (monthIdx x.date.year x.date.month
            < earliestDataIdx s (monthIdx y m)
              + (monthIdx y m + 1 - earliestDataIdx s (monthIdx y m)))))
          (fun x => x.quantity * x.rate) := by
    rw [qsum_filter_or _ _ _ _
      (fun x hx => (before_or_inMonth y m x.date hm1 hm2 (hd x hx)).2)]
    congr 1
    apply List.filter_congr
    intro x hx
    apply bool_eq_of_iff
    rw [(before_or_inMonth y m x.date hm1 hm2 (hd x hx)).1, decide_eq_true_eq]
    omega
  have hPay : qsum (s.payments.filter (fun p =>
        match p.forYear with | some z => z < y | none => false))
        (fun p => p.amount)
      + qsum (s.payments.filter (fun p => p.forYear == some y &&
          (match p.forMonth with | some w => w < m | none => false)))
          (fun p => p.amount)
      + qsum (s.payments.filter (fun p =>
          p.forMonth == some m && p.forYear == some y)) (fun p => p.amount)
      = qsum (s.payments.filter (fun p =>
          decide (monthIdx (p.forYear.getD 0) (p.forMonth.getD 0)
            < earliestDataIdx s (monthIdx y m)
              + (monthIdx y m + 1 - earliestDataIdx s (monthIdx y m)))))
          (fun p => p.amount) := by
    rw [qsum_filter_or _ _ _ _ (fun p hpm => by
      intro hc
      obtain ⟨mm, yy, hmm, hyy, _, _⟩ := hp p hpm
      simp only [hmm, hyy, Bool.and_eq_true, beq_iff_eq, Option.some.injEq,
        decide_eq_true_eq] at hc
      omega)]
    rw [qsum_filter_or _ _ _ _ (fun p hpm => by
      intro hc
      obtain ⟨mm, yy, hmm, hyy, _, _⟩ := hp p hpm
      simp only [hmm, hyy, Bool.or_eq_true, Bool.and_eq_true, beq_iff_eq,
        Option.some.injEq, decide_eq_true_eq] at hc
      omega)]
    congr 1
    apply List.filter_congr
    intro p hpm
    obtain ⟨mm, yy, hmm, hyy, hb1, hb2⟩ := hp p hpm
    apply bool_eq_of_iff
    simp only [hmm, hyy, Option.getD_some, Bool.or_eq_true, Bool.and_eq_true,
      beq_iff_eq, Option.some.injEq, decide_eq_true_eq]
    rw [han]
    unfold monthIdx
    omega
  have hmr : ∀ F : Nat × Nat → ℚ,
      qsum (monthRange (earliestDataIdx s (monthIdx y m)) (monthIdx y m)) F
        = ((List.range' (earliestDataIdx s (monthIdx y m))
            (monthIdx y m + 1 - earliestDataIdx s (monthIdx y m))).map
            (fun i => F (idxYear i, idxMonth i))).sum := by
    intro F
    unfold qsum monthRange
    rw [List.map_map]
    rfl
  have hR1 : qsum
      (monthRange (earliestDataIdx s (monthIdx y m)) (monthIdx y m))
      (fun q => (recalcOut s q.1 q.2).sales)
      = qsum (s.sales.filter (fun x =>
          decide (monthIdx x.date.year x.date.month
            < earliestDataIdx s (monthIdx y m)
              + (monthIdx y m + 1 - earliestDataIdx s (monthIdx y m)))))
          (fun x => x.quantity * x.rate) := by
    rw [hmr]
    exact sum_months_sales s _ _ hd
      (fun x hx => earliestDataIdx_le_sale s (monthIdx y m) x hx)
  have hR2 : qsum
      (monthRange (earliestDataIdx s (monthIdx y m)) (monthIdx y m))
      (fun q => (recalcOut s q.1 q.2).payments)
      = qsum (s.payments.filter (fun p =>
          decide (monthIdx (p.forYear.getD 0) (p.forMonth.getD 0)
            < earliestDataIdx s (monthIdx y m)
              + (monthIdx y m + 1 - earliestDataIdx s (monthIdx y m)))))
          (fun p => p.amount) := by
    have hstep : qsum
        (monthRange (earliestDataIdx s (monthIdx y m)) (monthIdx y m))
        (fun q => (recalcOut s q.1 q.2).payments)
        = qsum (monthRange (earliestDataIdx s (monthIdx y m)) (monthIdx y m))
          (fun q => directPayments s q.1 q.2) := by
      unfold qsum
      apply congrArg
      apply List.map_congr_left
      intro q _
      show directPayments s q.1 q.2 + allocatedPayments s q.1 q.2
        = directPayments s q.1 q.2
      rw [allocatedPayments_nil ha]
      ring
    rw [hstep, hmr]
    exact sum_months_direct s _ _ hp (fun p hpm => by
      obtain ⟨mm, yy, hmm, hyy, _, _⟩ := hp p hpm
      rw [hmm, hyy]
      simp only [Option.getD_some]
      exact earliestDataIdx_le_target s (monthIdx y m) p hpm mm yy hmm hyy)
  have hRHS : specMaterializedTotal s y m
      = qsum (s.sales.filter (fun x =>
          decide (monthIdx x.date.year x.date.month
            < earliestDataIdx s (monthIdx y m)
              + (monthIdx y m + 1 - earliestDataIdx s (monthIdx y m)))))
          (fun x => x.quantity * x.rate)
        - qsum (s.payments.filter (fun p =>
            decide (monthIdx (p.forYear.getD 0) (p.forMonth.getD 0)
              < earliestDataIdx s (monthIdx y m)
                + (monthIdx y m + 1 - earliestDataIdx s (monthIdx y m)))))
            (fun p => p.amount) := by
    unfold specMaterializedTotal
    rw [qsum_sub
      (monthRange (earliestDataIdx s (monthIdx y m)) (monthIdx y m))
      (fun q => (recalcOut s q.1 q.2).sales)
      (fun q => (recalcOut s q.1 q.2).payments), hR1, hR2]
  rw [hL, hU, hRHS]
  linarith [hSales, hPay]

/-- Counterexample state for C7: one January 2025 charge of 500 and one
untargeted, unallocated credit of 100 dated December 2024. -/
def exC7 : State :=
  ⟨[⟨⟨2025, 1, 10⟩, 10, 50⟩], [⟨0, ⟨2024, 12, 20⟩, 100, none, none⟩], [], []⟩

/-- C7 counterexample: the live path counts the untargeted prior credit
(total 400) while the materialized path never counts it in any month
(total 500) — the two paths disagree, refuting the claim as stated. -/
theorem C7_balance_agreement_counterexample :
    (getMonthBalance exC7 2025 1).total_balance
      ≠ specMaterializedTotal exC7 2025 1 := by
  have h1 : (getMonthBalance exC7 2025 1).total_balance = 400 := by
    simp [getMonthBalance, exC7, qsum, monthStart, monthEnd, predDay,
      daysInMonth, isLeap, dateLeB, dateLtB]
    norm_num
  have h2 : specMaterializedTotal exC7 2025 1 = 500 := by
    simp [specMaterializedTotal, earliestDataIdx, exC7, monthIdx, monthRange,
      idxYear, idxMonth, recalcOut, monthSales, directPayments,
      allocatedPayments, qsum, monthStart, monthEnd, predDay, daysInMonth,
      isLeap, dateLeB, dateLtB]
    norm_num
  rw [h1, h2]
  norm_num

/-- Ledger used by the witness of C7: every credit carries a valid direct
target and there are no allocations. -/
def exC7w : State :=
  ⟨[⟨⟨2025, 1, 10⟩, 10, 50⟩, ⟨⟨2025, 2, 5⟩, 2, 40⟩],
    [⟨0, ⟨2025, 2, 1⟩, 300, some 1, some 2025⟩], [], []⟩

theorem C7_balance_agreement_amended_witness :
    (1 ≤ 2) ∧ (2 ≤ 12) ∧ (∀ x ∈ exC7w.sales, ValidDate x.date) ∧
    exC7w.allocs = [] ∧
    (getMonthBalance exC7w 2025 2).total_balance
      = specMaterializedTotal exC7w 2025 2 :=
  ⟨by norm_num, by norm_num, by decide, rfl,
    C7_balance_agreement_amended exC7w 2025 2 (by norm_num) (by norm_num)
      (by decide) rfl
      (by
        intro p hpm
        rcases List.mem_singleton.mp hpm with rfl
        exact ⟨1, 2025, rfl, rfl, by norm_num, by norm_num⟩)⟩

end DairyLedger
